import Mathlib

/-!
Verification of the combined AIS and ADS-B to APRS bridge
(src/AISandAPRSbridge.py).

The Python program is shallowly embedded.  Modelling conventions:

* Numbers the program holds in IEEE doubles are modelled as rationals;
  every claim under study is a threshold comparison, not a rounding fact.
* The two haversine helpers (haversine_miles, haversine_nm) are pure
  trigonometric functions whose results are only compared against
  thresholds; they are abstracted as an explicit distance-function
  parameter of the track-manager steps.
* Wall-clock reads (time.time, utc_hhmmss) are lifted to explicit
  parameters.
* Python dicts that are never iterated are modelled as functions into
  Option; dicts the code iterates (last_seen, the fragment payload
  table) are association lists kept in insertion order.
* A send on the APRS socket is modelled as an emission event carrying
  the object name, position, delete flag and the wall-clock second; the
  socket is assumed to accept every line (the failure path only drops
  lines, which cannot increase any send count).
* Python exceptions raised inside the decoders (int of an empty string)
  are modelled with Except; functions that cannot raise are pure.
-/

namespace Bridge

/-- Update (dict assignment) on a function-modelled dict. -/
def fupd {κ α : Type} [DecidableEq κ] (f : κ → Option α) (k : κ) (v : α) : κ → Option α :=
  fun x => if x = k then some v else f x

/-- Removal (dict.pop) on a function-modelled dict. -/
def frem {κ α : Type} [DecidableEq κ] (f : κ → Option α) (k : κ) : κ → Option α :=
  fun x => if x = k then none else f x

/-- set.add on a function-modelled set of strings. -/
def sadd (f : String → Bool) (k : String) : String → Bool :=
  fun x => if x = k then true else f x

/-- set.discard on a function-modelled set of strings. -/
def sdel (f : String → Bool) (k : String) : String → Bool :=
  fun x => if x = k then false else f x

/-- Membership test on the association list modelling the last_seen dict. -/
def containsK (l : List (String × Nat)) (k : String) : Bool :=
  l.any (fun p => p.1 == k)

/-- Dict assignment on the last_seen association list: an existing key keeps
its position (as a Python dict does), a fresh key is appended. -/
def upsertK (l : List (String × Nat)) (k : String) (v : Nat) : List (String × Nat) :=
  if containsK l k then l.map (fun p => if p.1 == k then (k, v) else p) else l ++ [(k, v)]

/-- Dict.pop on the last_seen association list. -/
def eraseK (l : List (String × Nat)) (k : String) : List (String × Nat) :=
  l.filter (fun p => !(p.1 == k))

/-- Lookup on the last_seen association list. -/
def lookupK (l : List (String × Nat)) (k : String) : Option Nat :=
  (l.find? (fun p => p.1 == k)).map (fun p => p.2)

/-- Python str.upper, restricted to the ASCII data the feeds carry. -/
def pyUpper (s : String) : String := String.mk (s.toList.map Char.toUpper)

/-- Python whitespace characters stripped by str.strip. -/
def pyWs (c : Char) : Bool :=
  c == ' ' || c == '\t' || c == '\n' || c == '\r' || c == '\x0b' || c == '\x0c'

/-- Python str.strip. -/
def pyStrip (s : String) : String :=
  String.mk (((s.toList.dropWhile pyWs).reverse.dropWhile pyWs).reverse)

/-- Helper for Python str.split on a one-character separator. -/
def splitListAux (sep : Char) : List Char → List (List Char)
  | [] => [[]]
  | c :: rest =>
    match splitListAux sep rest with
    | [] => [[]]
    | h :: t => if c = sep then [] :: h :: t else (c :: h) :: t

/-- Python str.split on a one-character separator: every occurrence cuts,
empty pieces are kept. -/
def pySplit (s : String) (sep : Char) : List String :=
  (splitListAux sep s.toList).map String.mk

/-- Helper for Python str.startswith. -/
def isPrefixCh : List Char → List Char → Bool
  | [], _ => true
  | _, [] => false
  | a :: as, b :: bs => a == b && isPrefixCh as bs

/-- Python str.startswith. -/
def pyStartsWith (s p : String) : Bool := isPrefixCh p.toList s.toList

/-- Characters kept by the callsign cleaner regex [A-Z0-9]. -/
def isAlnumUpper (c : Char) : Bool :=
  (decide ('A' ≤ c) && decide (c ≤ 'Z')) || (decide ('0' ≤ c) && decide (c ≤ '9'))

/-- Python str.ljust with the space fill character. -/
def pyLjust (s : String) (w : Nat) : String :=
  s ++ String.mk (List.replicate (w - s.length) ' ')

/-- Python slicing s[:n] on an ASCII string. -/
def pyTake (s : String) (n : Nat) : String := String.mk (s.toList.take n)

/-- Python truthiness for an optional string followed by a fallback, as in
the expression a or b. -/
def pyOrStr (a : Option String) (b : String) : String :=
  match a with
  | some s => if s = "" then b else s
  | none => b

/-- Python int() truncation toward zero of a rational. -/
def pyTrunc (q : ℚ) : ℤ := if 0 ≤ q then ⌊q⌋ else -⌊-q⌋

/-- Number of characters of Python str(n) for a natural number. -/
def numDigitsPy (n : Nat) : Nat := if n = 0 then 1 else (Nat.digits 10 n).length

/-- Decimal characters of Python str(n) for a natural number. -/
def decChars (n : Nat) : List Char :=
  if n = 0 then ['0'] else ((Nat.digits 10 n).map Nat.digitChar).reverse

/-- Python format specifier {n:09d} for a natural number: pad the decimal
representation with zeros on the left to a minimum width of nine. -/
def pyFmt09d (n : Nat) : String :=
  String.mk (List.replicate (9 - numDigitsPy n) '0' ++ decChars n)

/-!
Shared APRS settings (source lines 41 and following).
-/

def MAX_PKTS_PER_SEC : Nat := 5

/-!
ADS-B section constants (source lines 102 to 120).
-/

def MIN_UPDATE_SEC : ℤ := 5

/-- 0.50 miles. -/
def MIN_MOVE_MI : ℚ := Rat.divInt 1 2

def OBJECT_TTL_SEC : ℤ := 300
def LANDED_ALT_FT : ℚ := 1000
def LANDED_WAIT_SEC : ℤ := 180
def LAND_CLEAR_ALT : ℚ := 1500

/-- 0.00015 degrees. -/
def EPS_LATLON_DEG : ℚ := Rat.divInt 15 100000

def EPS_ALT_FT : ℚ := 25
def EPS_TRK_DEG : ℤ := 3
def EPS_GS_KT : ℚ := 2

/-- 42.9405 degrees. -/
def KBUF_LAT : ℚ := Rat.divInt 429405 10000

/-- -78.7322 degrees. -/
def KBUF_LON : ℚ := Rat.divInt (-787322) 10000

def ADD_DISTANCE_MI : ℚ := 35
def CLEAR_DISTANCE_MI : ℚ := 40

/-- normalize_callsign (source line 158): uppercase, strip every character
outside [A-Z0-9], and turn an empty result (or a falsy input) into None. -/
def normalize_callsign (cs : Option String) : Option String :=
  match cs with
  | none => none
  | some c =>
    if c = "" then none
    else
      let n := String.mk ((pyUpper c).toList.filter isAlnumUpper)
      if n = "" then none else some n

/-- name_from_callsign_or_hex (source line 163): the normalized callsign cut
to nine characters and space padded, else the ICAO hex (or the literal
AIRCRAFT) cut to nine characters and space padded. -/
def name_from_callsign_or_hex (callsign : Option String) (icao_hex : String) : String :=
  match normalize_callsign callsign with
  | some n => pyLjust (pyTake n 9) 9
  | none => pyLjust (pyTake (if icao_hex = "" then "AIRCRAFT" else icao_hex) 9) 9

/-- Decoded SBS record as returned by parse_sbs (source line 225). -/
structure Msg where
  icao : Option String
  callsign : Option String
  lat : ℚ
  lon : ℚ
  trk : Option ℚ
  gs : Option ℚ
  alt : Option ℚ
deriving DecidableEq, Repr

/-- Entry of the last_sent dict (source line 486). -/
structure SentInfo where
  time : Nat
  state : Msg
  lat : ℚ
  lon : ℚ
  icao : String
deriving DecidableEq, Repr

/-- One line written to the APRS socket by the ADS-B worker, reduced to the
fields the claims speak about: object name, position, whether the comment
carries the DEL sentinel, and the wall-clock second of the send. -/
structure Emit where
  name : String
  lat : ℚ
  lon : ℚ
  isDel : Bool
  sec : Nat
deriving DecidableEq, Repr

/-- Mutable state of the adsb_worker loop (source lines 296 to 304). -/
structure AdsbState where
  lastSeen : List (String × Nat)
  lastSent : String → Option SentInfo
  lowAltSince : String → Option Nat
  landedBlock : String → Bool
  hexToName : String → Option String
  nameToHex : String → Option String
  metaFlight : String → Option String
  lastSec : Nat
  sentThisSec : Nat

/-- Initial adsb_worker state: every table empty. -/
def adsbInit : AdsbState :=
  { lastSeen := []
    lastSent := fun _ => none
    lowAltSince := fun _ => none
    landedBlock := fun _ => false
    hexToName := fun _ => none
    nameToHex := fun _ => none
    metaFlight := fun _ => none
    lastSec := 0
    sentThisSec := 0 }

/-- icao_hex of a record (source line 329). -/
def icaoHexOf (m : Msg) : String := pyUpper (m.icao.getD "")

/-- callsign of a record after the JSON metadata fallback (source line 332). -/
def callsignOf (s : AdsbState) (m : Msg) : Option String :=
  match m.callsign with
  | some c => if c = "" then s.metaFlight (icaoHexOf m) else some c
  | none => s.metaFlight (icaoHexOf m)

/-- desired_name of a record (source line 333). -/
def desiredNameOf (s : AdsbState) (m : Msg) : String :=
  name_from_callsign_or_hex (callsignOf s m) (icaoHexOf m)

/-- tracked_name of a record (source line 339). -/
def trackedNameOf (s : AdsbState) (m : Msg) : String :=
  pyOrStr (s.hexToName (icaoHexOf m)) (desiredNameOf s m)

/-- Out-of-range clear (source lines 342 to 361): emit a delete at the last
sent position when one exists, else at the record position, and drop every
per-track entry. -/
def rangeClear (s : AdsbState) (m : Msg) (now : Nat) : AdsbState × List Emit :=
  let icao := icaoHexOf m
  let tracked := trackedNameOf s m
  let li := s.lastSent tracked
  let dlat := match li with | some i => i.lat | none => m.lat
  let dlon := match li with | some i => i.lon | none => m.lon
  ({ s with
      lastSeen := eraseK s.lastSeen tracked
      lastSent := frem s.lastSent tracked
      lowAltSince := frem s.lowAltSince tracked
      landedBlock := sdel s.landedBlock tracked
      hexToName :=
        match s.hexToName icao with
        | some c => if c = "" then s.hexToName else frem s.hexToName icao
        | none => s.hexToName
      nameToHex := frem s.nameToHex tracked },
    [⟨tracked, dlat, dlon, true, now⟩])

/-- Landed-dwell delete (source lines 382 to 400): emit a delete, drop the
track from last_seen and last_sent, and put the name into the suppression
set. -/
def dwellDelete (s : AdsbState) (m : Msg) (now : Nat) : AdsbState × List Emit :=
  let icao := icaoHexOf m
  let tracked := trackedNameOf s m
  let li := s.lastSent tracked
  let dlat := match li with | some i => i.lat | none => m.lat
  let dlon := match li with | some i => i.lon | none => m.lon
  ({ s with
      lastSeen := eraseK s.lastSeen tracked
      lastSent := frem s.lastSent tracked
      landedBlock := sadd s.landedBlock tracked
      hexToName :=
        match s.hexToName icao with
        | some c => if c = "" then s.hexToName else frem s.hexToName icao
        | none => s.hexToName
      nameToHex := frem s.nameToHex tracked },
    [⟨tracked, dlat, dlon, true, now⟩])

/-- state_changed (source lines 448 to 463), the change-detection predicate,
with the early-return chain of the source kept intact.  The circular track
comparison first truncates both values with int() and reduces them modulo
360 as the source does. -/
def circDiffTrunc (a b : ℚ) : ℤ :=
  let x := pyTrunc a % 360
  let y := pyTrunc b % 360
  let d := |x - y|
  min d (360 - d)

def state_changed (prev : Option Msg) (cur : Msg) : Bool :=
  match prev with
  | none => true
  | some p =>
    if |cur.lat - p.lat| ≥ EPS_LATLON_DEG then true
    else if |cur.lon - p.lon| ≥ EPS_LATLON_DEG then true
    else if cur.alt.isNone ≠ p.alt.isNone then true
    else if (match cur.alt, p.alt with
             | some a, some b => decide (|a - b| ≥ EPS_ALT_FT)
             | _, _ => false) then true
    else if cur.trk.isNone ≠ p.trk.isNone then true
    else if (match cur.trk, p.trk with
             | some a, some b => decide (circDiffTrunc a b ≥ EPS_TRK_DEG)
             | _, _ => false) then true
    else if cur.gs.isNone ≠ p.gs.isNone then true
    else if (match cur.gs, p.gs with
             | some a, some b => decide (|a - b| ≥ EPS_GS_KT)
             | _, _ => false) then true
    else false

/-- need_send (source lines 465 to 471): first send, movement of at least
MIN_MOVE_MI, or a state change after at least MIN_UPDATE_SEC.  The dist
parameter abstracts haversine_miles. -/
def need_send (dist : ℚ → ℚ → ℚ → ℚ → ℚ) (prev : Option SentInfo) (m : Msg) (now : Nat) : Bool :=
  match prev with
  | none => true
  | some p =>
    if decide (dist p.lat p.lon m.lat m.lon ≥ MIN_MOVE_MI) then true
    else if state_changed (some p.state) m && decide ((now : ℤ) - (p.time : ℤ) ≥ MIN_UPDATE_SEC) then true
    else false

/-- Rename, admission, last_seen update and emission decision (source lines
411 to 511), entered only after the per-second gate has passed. -/
def afterThrottle (dist : ℚ → ℚ → ℚ → ℚ → ℚ) (s : AdsbState) (m : Msg) (now : Nat) :
    AdsbState × List Emit :=
  let icao := icaoHexOf m
  let desired := desiredNameOf s m
  let r1 :=
    match s.hexToName icao with
    | some cur =>
      if cur ≠ "" ∧ desired ≠ cur then
        let li := s.lastSent cur
        let dlat := match li with | some i => i.lat | none => m.lat
        let dlon := match li with | some i => i.lon | none => m.lon
        let s1 :=
          { s with
              lastSeen := eraseK s.lastSeen cur
              lastSent :=
                match s.lastSent cur with
                | some p => fupd (frem s.lastSent cur) desired p
                | none => frem s.lastSent cur
              nameToHex := fupd (frem s.nameToHex cur) desired icao
              hexToName := fupd s.hexToName icao desired }
        (s1, [(⟨cur, dlat, dlon, true, now⟩ : Emit)], desired)
      else (s, ([] : List Emit), trackedNameOf s m)
    | none => (s, ([] : List Emit), trackedNameOf s m)
  let s1 := r1.1
  let es1 := r1.2.1
  let tracked := r1.2.2
  let s2 :=
    if icao ≠ "" ∧ s1.hexToName icao = none then
      { s1 with
          hexToName := fupd s1.hexToName icao tracked
          nameToHex := fupd s1.nameToHex tracked icao }
    else s1
  let s3 := { s2 with lastSeen := upsertK s2.lastSeen tracked now }
  let prev := s3.lastSent tracked
  if need_send dist prev m now then
    ({ s3 with
        lastSent := fupd s3.lastSent tracked ⟨now, m, m.lat, m.lon, icao⟩
        sentThisSec := s3.sentThisSec + 1 },
      es1 ++ [⟨tracked, m.lat, m.lon, false, now⟩])
  else (s3, es1)

/-- Per-second global throttle (source lines 405 to 409) followed by the
rename, admission and emission phase. -/
def throttlePhase (dist : ℚ → ℚ → ℚ → ℚ → ℚ) (s : AdsbState) (m : Msg) (now : Nat) :
    AdsbState × List Emit :=
  let s := if now ≠ s.lastSec then { s with lastSec := now, sentThisSec := 0 } else s
  if s.sentThisSec ≥ MAX_PKTS_PER_SEC then (s, [])
  else afterThrottle dist s m now

/-- Landed suppression and landed dwell (source lines 369 to 402) followed
by the throttle phase.  Entered once the range gates have passed. -/
def afterRange (dist : ℚ → ℚ → ℚ → ℚ → ℚ) (s : AdsbState) (m : Msg) (now : Nat) :
    AdsbState × List Emit :=
  let tracked := trackedNameOf s m
  let s1 :=
    if s.landedBlock tracked = true ∧ (m.alt = none ∨ ∃ a, m.alt = some a ∧ a > LAND_CLEAR_ALT) then
      { s with landedBlock := sdel s.landedBlock tracked, lowAltSince := frem s.lowAltSince tracked }
    else s
  if s1.landedBlock tracked = true ∧ (∃ a, m.alt = some a ∧ a ≤ LANDED_ALT_FT) then (s1, [])
  else
    match m.alt with
    | some a =>
      if a ≤ LANDED_ALT_FT then
        let s2 :=
          if s1.lowAltSince tracked = none then
            { s1 with lowAltSince := fupd s1.lowAltSince tracked now }
          else s1
        let t0 := (s2.lowAltSince tracked).getD 0
        if (now : ℤ) - (t0 : ℤ) ≥ LANDED_WAIT_SEC then dwellDelete s2 m now
        else throttlePhase dist s2 m now
      else throttlePhase dist { s1 with lowAltSince := frem s1.lowAltSince tracked } m now
    | none => throttlePhase dist { s1 with lowAltSince := frem s1.lowAltSince tracked } m now

/-- One iteration of the adsb_worker inner loop for one parsed SBS record
(source lines 329 to 525).  The dist parameter abstracts haversine_miles
and now abstracts int(time.time()). -/
def adsbStep (dist : ℚ → ℚ → ℚ → ℚ → ℚ) (s : AdsbState) (m : Msg) (now : Nat) :
    AdsbState × List Emit :=
  let tracked := trackedNameOf s m
  let dK := dist KBUF_LAT KBUF_LON m.lat m.lon
  if containsK s.lastSeen tracked = true ∧ dK > CLEAR_DISTANCE_MI then rangeClear s m now
  else if containsK s.lastSeen tracked = false ∧ dK > ADD_DISTANCE_MI then (s, [])
  else afterRange dist s m now

/-- One step of the TTL cleanup loop body (source lines 531 to 552) for a
single expired name. -/
def sweepOne (s : AdsbState) (n : String) (now : Nat) : AdsbState × List Emit :=
  let li := s.lastSent n
  let dlat := match li with | some i => i.lat | none => (0 : ℚ)
  let dlon := match li with | some i => i.lon | none => (0 : ℚ)
  let hx := s.nameToHex n
  ({ s with
      lastSeen := eraseK s.lastSeen n
      lastSent := frem s.lastSent n
      lowAltSince := frem s.lowAltSince n
      landedBlock := sdel s.landedBlock n
      nameToHex := frem s.nameToHex n
      hexToName :=
        match hx with
        | some h => if h = "" then s.hexToName else frem s.hexToName h
        | none => s.hexToName },
    [⟨n, dlat, dlon, true, now⟩])

/-- Helper fold for the TTL cleanup. -/
def sweepList (s : AdsbState) (names : List String) (now : Nat) : AdsbState × List Emit :=
  match names with
  | [] => (s, [])
  | n :: rest =>
    let r := sweepOne s n now
    let r2 := sweepList r.1 rest now
    (r2.1, r.2 ++ r2.2)

/-- TTL cleanup phase (source lines 528 to 552): delete every track whose
last_seen entry is at least OBJECT_TTL_SEC old. -/
def ttlSweep (s : AdsbState) (now : Nat) : AdsbState × List Emit :=
  let dead := (s.lastSeen.filter (fun p => (now : ℤ) - (p.2 : ℤ) ≥ OBJECT_TTL_SEC)).map (fun p => p.1)
  sweepList s dead now

/-- One observable event of the adsb_worker loop: either a parsed SBS record
arriving or a pass of the TTL cleanup, each carrying the wall-clock second. -/
inductive AdsbItem where
  | record (m : Msg) (now : Nat)
  | sweep (now : Nat)
deriving Repr

/-- Wall-clock second of a loop event. -/
def AdsbItem.time : AdsbItem → Nat
  | .record _ now => now
  | .sweep now => now

/-- Run of the adsb_worker over a list of loop events, collecting the
emitted lines in order. -/
def runAdsb (dist : ℚ → ℚ → ℚ → ℚ → ℚ) (s : AdsbState) : List AdsbItem → AdsbState × List Emit
  | [] => (s, [])
  | .record m now :: rest =>
    let r := adsbStep dist s m now
    let r2 := runAdsb dist r.1 rest
    (r2.1, r.2 ++ r2.2)
  | .sweep now :: rest =>
    let r := ttlSweep s now
    let r2 := runAdsb dist r.1 rest
    (r2.1, r.2 ++ r2.2)

/-- Number of non-delete lines sent during second t. -/
def normCount (es : List Emit) (t : Nat) : Nat :=
  (es.filter (fun e => !e.isDel && e.sec == t)).length

/-- Number of all lines (deletes included) sent during second t. -/
def allCount (es : List Emit) (t : Nat) : Nat :=
  (es.filter (fun e => e.sec == t)).length

/-!
AIS section constants (source lines 569 to 574).
-/

/-- 42.9 degrees. -/
def CENTER_LAT : ℚ := Rat.divInt 429 10

/-- -78.9 degrees. -/
def CENTER_LON : ℚ := Rat.divInt (-789) 10

def MAX_RANGE_NM : ℚ := 250
def TELEPORT_MOVE_NM : ℚ := 150
def TELEPORT_TIME_SEC : ℤ := 900

/-!
AIS payload decoding (source lines 581 to 708).  A decoded payload is a
list of booleans, most significant bit first.
-/

/-- Value of one payload character under AIS armoring (source line 581):
chr minus 48 when below 88, else chr minus 56, and 0 for characters
outside the table range 48 to 119 (dict get default). -/
def asciiTo6 (c : Char) : Nat :=
  let v := c.toNat
  if 48 ≤ v ∧ v < 120 then (if v < 88 then v - 48 else v - 56) else 0

/-- Six bits of a value below 64, most significant first, as the format
specifier {:06b} renders it. -/
def toBits6 (v : Nat) : List Bool :=
  [v.testBit 5, v.testBit 4, v.testBit 3, v.testBit 2, v.testBit 1, v.testBit 0]

/-- sixbit_unpack (source line 583). -/
def sixbit_unpack (payload : String) : List Bool :=
  (payload.toList.map (fun c => toBits6 (asciiTo6 c))).flatten

/-- Value of a nonempty bit slice read as a binary literal. -/
def binVal (l : List Bool) : Nat :=
  l.foldl (fun a b => 2 * a + (if b then 1 else 0)) 0

/-- Python int(s, 2) on a bit slice: a ValueError on the empty slice,
modelled as Except.error, else the value. -/
def pyBinInt (l : List Bool) : Except Unit Nat :=
  if l.isEmpty then .error () else .ok (binVal l)

/-- Unsigned field read (source line 586).  Reading past the end of the
bit string shortens the slice as Python slicing does; an empty slice makes
int raise. -/
def uRead (bits : List Bool) (start length : Nat) : Except Unit Nat :=
  pyBinInt ((bits.drop start).take length)

/-- Signed field read (source line 589): an empty slice returns 0, else the
unsigned value minus 2 to the requested length when the first bit of the
slice is set.  This function cannot raise. -/
def sRead (bits : List Bool) (start length : Nat) : ℤ :=
  match (bits.drop start).take length with
  | [] => 0
  | b :: rest =>
    let v : ℤ := binVal (b :: rest)
    if b then v - 2 ^ length else v

/-- sixbit_to_ascii (source line 598): read ceil(length/6) six-bit groups,
map each to val + 0x20 with the at sign turned into a space, then strip. -/
def sixbit_to_ascii (bits : List Bool) (start length : Nat) : Except Unit String := do
  let vals ← (List.range ((length + 5) / 6)).mapM (fun k => uRead bits (start + 6 * k) 6)
  let chars := vals.map (fun v => if Char.ofNat (v + 0x20) = '@' then ' ' else Char.ofNat (v + 0x20))
  pure (pyStrip (String.mk chars))

/-- Decoded AIS position record (decode_position and relatives). -/
structure PosInfo where
  type : Nat
  mmsi : Nat
  lat : ℚ
  lon : ℚ
  sog : Option ℚ
  cog : Option ℚ
  hdg : Option ℚ
deriving DecidableEq, Repr

/-- Decoded AIS static record (decode_static). -/
structure StaticInfo where
  type : Nat
  mmsi : Nat
  name : String
deriving DecidableEq, Repr

/-- decode_position (source lines 608 to 640). -/
def decode_position (bits : List Bool) : Except Unit (Option PosInfo × Option String) := do
  if bits.length < 168 then pure (none, some "short")
  else
    let msgtype ← uRead bits 0 6
    if msgtype = 1 ∨ msgtype = 2 ∨ msgtype = 3 then
      let lon := sRead bits 61 28
      let lat := sRead bits 89 27
      let sog10 ← uRead bits 50 10
      let cog10 ← uRead bits 116 12
      let hdg ← uRead bits 128 9
      if |lon| ≥ 108600000 ∨ |lat| ≥ 54600000 then pure (none, some "invalid_latlon")
      else
        let mmsi ← uRead bits 8 30
        pure (some
          { type := msgtype, mmsi := mmsi
            lat := (lat : ℚ) / 600000, lon := (lon : ℚ) / 600000
            sog := if sog10 = 1023 then none else some ((sog10 : ℚ) / 10)
            cog := if cog10 ≥ 3600 then none else some ((cog10 : ℚ) / 10)
            hdg := if hdg = 511 then none else some (hdg : ℚ) }, none)
    else if msgtype = 18 ∨ msgtype = 19 then
      let lon := sRead bits 57 28
      let lat := sRead bits 85 27
      let sog10 ← uRead bits 46 10
      let cog10 ← uRead bits 112 12
      let hdg ← uRead bits 124 9
      if |lon| ≥ 108600000 ∨ |lat| ≥ 54600000 then pure (none, some "invalid_latlon")
      else
        let mmsi ← uRead bits 8 30
        pure (some
          { type := msgtype, mmsi := mmsi
            lat := (lat : ℚ) / 600000, lon := (lon : ℚ) / 600000
            sog := if sog10 = 1023 then none else some ((sog10 : ℚ) / 10)
            cog := if cog10 ≥ 3600 then none else some ((cog10 : ℚ) / 10)
            hdg := if hdg = 511 then none else some (hdg : ℚ) }, none)
    else pure (none, some ("type" ++ toString msgtype))

/-- decode_basestation (source lines 642 to 663). -/
def decode_basestation (bits : List Bool) : Except Unit (Option PosInfo × Option String) := do
  if bits.length < 168 then pure (none, some "short")
  else
    let msgtype ← uRead bits 0 6
    if msgtype ≠ 4 then pure (none, some "not_type4")
    else
      let lon := sRead bits 79 28
      let lat := sRead bits 107 27
      if |lon| ≥ 108600000 ∨ |lat| ≥ 54600000 then pure (none, some "invalid_latlon")
      else
        let mmsi ← uRead bits 8 30
        pure (some
          { type := 4, mmsi := mmsi
            lat := (lat : ℚ) / 600000, lon := (lon : ℚ) / 600000
            sog := some 0, cog := some 0, hdg := none }, none)

/-- decode_longrange (source lines 665 to 687).  The sentinel test compares
the signed field values against 0x1FFFF exactly as the source does. -/
def decode_longrange (bits : List Bool) : Except Unit (Option PosInfo × Option String) := do
  if bits.length < 96 then pure (none, some "short")
  else
    let msgtype ← uRead bits 0 6
    if msgtype ≠ 27 then pure (none, some "not_type27")
    else
      let lon := sRead bits 44 18
      let lat := sRead bits 62 17
      if lon = 0x1FFFF ∨ lat = 0x1FFFF then pure (none, some "invalid_latlon")
      else
        let mmsi ← uRead bits 8 30
        pure (some
          { type := 27, mmsi := mmsi
            lat := (lat : ℚ) / 600, lon := (lon : ℚ) / 600
            sog := none, cog := none, hdg := none }, none)

/-- decode_static (source lines 689 to 708).  The message type is read
before any length check, so an empty bit string raises. -/
def decode_static (bits : List Bool) : Except Unit (Option StaticInfo × Option String) := do
  let msgtype ← uRead bits 0 6
  if msgtype = 5 then
    if bits.length < 424 then pure (none, some "short5")
    else
      let mmsi ← uRead bits 8 30
      let name ← sixbit_to_ascii bits 112 120
      pure (some { type := 5, mmsi := mmsi, name := name }, none)
  else if msgtype = 24 then
    if bits.length < 160 then pure (none, some "short24")
    else
      let mmsi ← uRead bits 8 30
      let part_no ← uRead bits 38 2
      if part_no = 0 ∨ part_no = 1 then
        let name ← sixbit_to_ascii bits 40 120
        pure (some { type := 24, mmsi := mmsi, name := name }, none)
      else pure (none, some "partB")
  else pure (none, some ("not_static" ++ toString msgtype))

/-- Result of the decode section of ais_worker for one assembled payload. -/
inductive AisDecoded where
  | static (info : StaticInfo)
  | pos (info : PosInfo)
deriving DecidableEq, Repr

/-- Decode chain of ais_worker (source lines 856 to 883): unpack, trim the
fill bits, try decode_static, then decode_position, decode_basestation and
decode_longrange in order; none matching drops the record.  An error value
is a Python exception escaping to the ais_worker handler. -/
def ais_handle_payload (payload : String) (fill : Nat) : Except Unit (Option AisDecoded) := do
  let bits0 := sixbit_unpack payload
  let bits := if fill ≠ 0 then bits0.take (bits0.length - fill) else bits0
  let st ← decode_static bits
  match st.1 with
  | some info => pure (some (.static info))
  | none => do
    let p1 ← decode_position bits
    match p1.1 with
    | some info => pure (some (.pos info))
    | none => do
      let p2 ← decode_basestation bits
      match p2.1 with
      | some info => pure (some (.pos info))
      | none => do
        let p3 ← decode_longrange bits
        match p3.1 with
        | some info => pure (some (.pos info))
        | none => pure none

/-!
AIS worker gating and throttling (source lines 885 to 934).
-/

/-- Entry of the last_good dict (source line 934). -/
structure GoodFix where
  lat : ℚ
  lon : ℚ
  time : Nat
deriving DecidableEq, Repr

/-- Mutable state of the ais_worker loop relevant to gating and sending. -/
structure AisState where
  lastGood : Nat → Option GoodFix
  lastSec : Nat
  sentThisSec : Nat

/-- Initial ais_worker state. -/
def aisInit : AisState :=
  { lastGood := fun _ => none, lastSec := 0, sentThisSec := 0 }

/-- One line written to the APRS socket by the AIS worker. -/
structure AisEmit where
  mmsi : Nat
  sec : Nat
deriving DecidableEq, Repr

/-- Throttle and send part of the ais_worker (source lines 909 to 934):
reset the per-second counter on a new second, drop the record when the
counter is full, otherwise count, send and update last_good. -/
def aisThrottleSend (s : AisState) (info : PosInfo) (now : Nat) : AisState × List AisEmit :=
  let s := if now ≠ s.lastSec then { s with lastSec := now, sentThisSec := 0 } else s
  if s.sentThisSec ≥ MAX_PKTS_PER_SEC then (s, [])
  else
    ({ s with
        sentThisSec := s.sentThisSec + 1
        lastGood := fupd s.lastGood info.mmsi ⟨info.lat, info.lon, now⟩ },
      [⟨info.mmsi, now⟩])

/-- One iteration of the ais_worker for one decoded position record
(source lines 885 to 934): near-zero gate, range gate, teleport gate,
then throttle and send.  The dnm parameter abstracts haversine_nm. -/
def aisStep (dnm : ℚ → ℚ → ℚ → ℚ → ℚ) (s : AisState) (info : PosInfo) (now : Nat) :
    AisState × List AisEmit :=
  if |info.lat| < Rat.divInt 1 1000 ∧ |info.lon| < Rat.divInt 1 1000 then (s, [])
  else if dnm CENTER_LAT CENTER_LON info.lat info.lon > MAX_RANGE_NM then (s, [])
  else
    match s.lastGood info.mmsi with
    | some prev =>
      if (now : ℤ) - (prev.time : ℤ) < TELEPORT_TIME_SEC ∧
          dnm prev.lat prev.lon info.lat info.lon > TELEPORT_MOVE_NM then (s, [])
      else aisThrottleSend s info now
    | none => aisThrottleSend s info now

/-- Run of the ais_worker gate over a list of decoded records with their
arrival seconds. -/
def runAis (dnm : ℚ → ℚ → ℚ → ℚ → ℚ) (s : AisState) : List (PosInfo × Nat) → AisState × List AisEmit
  | [] => (s, [])
  | (info, now) :: rest =>
    let r := aisStep dnm s info now
    let r2 := runAis dnm r.1 rest
    (r2.1, r.2 ++ r2.2)

/-- Number of AIS lines sent during second t. -/
def aisCount (es : List AisEmit) (t : Nat) : Nat :=
  (es.filter (fun e => e.sec == t)).length

/-!
APRS object construction, the parts the claims mention (source lines 732
to 761 and 163 to 189).  The impure utc_hhmmss() call is lifted to the
hhmmss parameter.
-/

/-- Object-name field of the AIS APRS object line (source lines 733 and
753): the MMSI formatted with {:09d} and then placed with {:<9s}. -/
def aisObjNameField (mmsi : Nat) : String := pyLjust (pyFmt09d mmsi) 9

/-- Timestamp field of every APRS object line (source lines 172 and 735):
the UTC HHMMSS string with a literal z appended. -/
def aprsTimestamp (hhmmss : String) : String := hhmmss ++ "z"

/-!
NMEA sentence parsing and fragment reassembly (source lines 763 to 810).
-/

/-- Python int() of a string: optional surrounding whitespace, an optional
sign, then at least one decimal digit; anything else raises ValueError,
modelled as none. -/
def pyIntStr (s : String) : Option ℤ :=
  let t := (pyStrip s).toList
  let core : List Char → Option ℤ := fun ds =>
    if ds ≠ [] ∧ ds.all (fun d => decide ('0' ≤ d) && decide (d ≤ '9')) then
      some (((ds.map (fun d => d.toNat - 48)).foldl (fun a d => 10 * a + d) 0 : Nat) : ℤ)
    else none
  match t with
  | [] => none
  | c :: rest =>
    if c = '-' then (core rest).map (fun v => -v)
    else if c = '+' then core rest
    else core t

/-- List indexing with the empty string out of range, for the split fields
of a line. -/
def fget (l : List String) (i : Nat) : String := l.getD i ""

/-- Fields extracted from one AIVDM or AIVDO line by the front part of
parse_nmea (source lines 765 to 785). -/
inductive NmeaFields where
  | bad (why : String)
  | single (payload : String) (fill : ℤ)
  | frag (count num : ℤ) (seq chan payload : String) (fill : ℤ)
deriving DecidableEq, Repr

/-- Front part of parse_nmea: sentence recognition, comma split, fragment
field parsing, fill-bit extraction, and the single-fragment early return
(source lines 765 to 788). -/
def nmea_fields (line : String) : NmeaFields :=
  if ¬ (pyStartsWith line "!AIVDM" = true ∨ pyStartsWith line "!AIVDO" = true) then .bad "not_AIVDM"
  else
    let parts := pySplit line ','
    if parts.length < 7 then .bad "short_line"
    else
      match pyIntStr (pyOrStr (some (fget parts 1)) "1"),
            pyIntStr (pyOrStr (some (fget parts 2)) "1") with
      | some fragcount, some fragnum =>
        let seq_id := fget parts 3
        let channel := fget parts 4
        let payload := fget parts 5
        let fb_raw := (pySplit (fget parts 6) '*').headD ""
        let fillbits := (pyIntStr (pyOrStr (some fb_raw) "0")).getD 0
        if fragcount = 1 ∧ fragnum = 1 then .single payload fillbits
        else .frag fragcount fragnum seq_id channel payload fillbits
      | _, _ => .bad "bad_frag_fields"

/-- Entry of the frag_store table (source lines 793 to 798); the stored
wall-clock time is never read and is omitted. -/
structure FragEntry where
  total : ℤ
  payloads : List (ℤ × String)
  fill : ℤ
deriving DecidableEq, Repr

/-- Dict assignment on the fragment payload table, keeping positions. -/
def upsertI (l : List (ℤ × String)) (k : ℤ) (v : String) : List (ℤ × String) :=
  match l with
  | [] => [(k, v)]
  | (a, b) :: t => if a = k then (k, v) :: t else (a, b) :: upsertI t k v

/-- Lookup on the fragment payload table. -/
def lookupI (l : List (ℤ × String)) (k : ℤ) : Option String :=
  (l.find? (fun p => p.1 == k)).map (fun p => p.2)

/-- The frag_store itself, keyed by (sequence id, channel). -/
def FragStore := (String × String) → Option FragEntry

/-- Empty frag_store. -/
def fragInit : FragStore := fun _ => none

/-- Python range(a, b) over integers. -/
def pyRange (a b : ℤ) : List ℤ := (List.range (b - a).toNat).map (fun k : ℕ => a + (k : ℤ))

/-- Multi-fragment branch of parse_nmea (source lines 790 to 810): store
the payload under its fragment number, remember the fill bits of the last
fragment, and assemble once the number of stored payloads equals the
fragment count remembered from the first fragment of the key. -/
def frag_step (st : FragStore) (count num : ℤ) (seq chan payload : String) (fill : ℤ) :
    FragStore × (Option (String × ℤ) × Option String) :=
  let key := (seq, chan)
  let entry :=
    match st key with
    | some e => e
    | none => { total := count, payloads := [], fill := fill }
  let entry := { entry with payloads := upsertI entry.payloads num payload, fill := fill }
  if (entry.payloads.length : ℤ) = entry.total then
    let full := String.join ((pyRange 1 (entry.total + 1)).map
      (fun i => (lookupI entry.payloads i).getD ""))
    (fun k => if k = key then none else st k, (some (full, entry.fill), none))
  else
    (fun k => if k = key then some entry else st k, (none, some "waiting_frag"))

/-- parse_nmea (source lines 765 to 810), acting on an explicit frag_store
and returning the (result, reason) pair of the source together with the
updated store. -/
def parse_nmea (st : FragStore) (line : String) :
    FragStore × (Option (String × ℤ) × Option String) :=
  match nmea_fields line with
  | .bad why => (st, (none, some why))
  | .single payload fill => (st, (some (payload, fill), none))
  | .frag count num seq chan payload fill => frag_step st count num seq chan payload fill

/-!
SBS line parsing (source lines 203 to 225).  Python float() on the
altitude, speed, track, latitude and longitude fields is abstracted as the
pyF parameter (none models ValueError), and int() on the subtype field as
the pyI parameter; both are total oracles over strings.
-/

/-- Body of parse_sbs acting on the comma-split fields (source lines 205
to 225). -/
def parse_sbs_fields (pyF : String → Option ℚ) (pyI : String → Option ℤ) (f : List String) :
    Option Msg :=
  if f.length < 22 ∨ fget f 0 ≠ "MSG" then none
  else
    match pyI (fget f 1) with
    | none => none
    | some subtype =>
      if subtype ≠ 3 ∧ subtype ≠ 4 then none
      else
        match (if fget f 14 ≠ "" then pyF (fget f 14) else none),
              (if fget f 15 ≠ "" then pyF (fget f 15) else none) with
        | some la, some lo =>
          some { icao := if fget f 4 ≠ "" then some (pyUpper (pyStrip (fget f 4))) else none
                 callsign :=
                   if f.length > 10 ∧ pyStrip (fget f 10) ≠ "" then some (pyStrip (fget f 10)) else none
                 lat := la, lon := lo
                 trk := if fget f 13 ≠ "" then pyF (fget f 13) else none
                 gs := if fget f 12 ≠ "" then pyF (fget f 12) else none
                 alt := if fget f 11 ≠ "" then pyF (fget f 11) else none }
        | _, _ => none

/-- parse_sbs (source lines 203 to 225): strip and comma-split the line,
then parse the fields. -/
def parse_sbs (pyF : String → Option ℚ) (pyI : String → Option ℤ) (line : String) : Option Msg :=
  parse_sbs_fields pyF pyI (pySplit (pyStrip line) ',')

/-!
Helper lemmas.
-/

theorem binVal_foldl_eq (a0 : Nat) (l : List Bool) :
    l.foldl (fun a b => 2 * a + (if b then 1 else 0)) a0 = a0 * 2 ^ l.length + binVal l := by
  induction l generalizing a0 with
  | nil => simp [binVal]
  | cons b t ih =>
    simp only [List.foldl_cons, List.length_cons, binVal]
    rw [ih (2 * a0 + (if b then 1 else 0)), ih (2 * 0 + (if b then 1 else 0))]
    ring

theorem binVal_cons (b : Bool) (t : List Bool) :
    binVal (b :: t) = (if b then 1 else 0) * 2 ^ t.length + binVal t := by
  show List.foldl _ _ (b :: t) = _
  rw [List.foldl_cons, binVal_foldl_eq]
  ring_nf

theorem binVal_lt (l : List Bool) : binVal l < 2 ^ l.length := by
  induction l with
  | nil => simp [binVal]
  | cons b t ih =>
    rw [binVal_cons, List.length_cons, pow_succ]
    rcases b with _ | _ <;> simp <;> omega

theorem binVal_cons_false (t : List Bool) : binVal (false :: t) = binVal t := by
  simp only [binVal, List.foldl_cons]
  norm_num

/-- The signed 17-bit read of the type-27 latitude field can never equal
the unsigned sentinel 0x1FFFF: its value lies below 2 to the 16. -/
theorem sRead_17_lt_sentinel (bits : List Bool) (start : Nat) :
    sRead bits start 17 < 131071 := by
  unfold sRead
  have hlen : ((bits.drop start).take 17).length ≤ 17 :=
    List.length_take_le 17 (bits.drop start)
  rcases h : (bits.drop start).take 17 with _ | ⟨b, rest⟩
  · norm_num
  · have hrest : rest.length ≤ 16 := by
      rw [h] at hlen
      simpa using hlen
    rcases b with _ | _
    · simp only [if_neg Bool.false_ne_true]
      rw [binVal_cons_false]
      have := binVal_lt rest
      have h2 : (2 : ℕ) ^ rest.length ≤ 2 ^ 16 := Nat.pow_le_pow_right (by norm_num) hrest
      have : binVal rest < 2 ^ 16 := lt_of_lt_of_le this h2
      omega
    · simp only [if_pos rfl]
      have hv := binVal_lt (true :: rest)
      have hl : (true :: rest).length ≤ 17 := by simpa using hrest
      have h2 : (2 : ℕ) ^ (true :: rest).length ≤ 2 ^ 17 := Nat.pow_le_pow_right (by norm_num) hl
      have : binVal (true :: rest) < 2 ^ 17 := lt_of_lt_of_le hv h2
      push_cast
      omega

theorem length_mkStr (l : List Char) : (String.mk l).length = l.length := rfl

theorem length_strAppend (a b : String) : (a ++ b).length = a.length + b.length := by
  simp

theorem length_pyLjust (s : String) (w : Nat) : (pyLjust s w).length = max w s.length := by
  unfold pyLjust
  rw [length_strAppend]
  show s.length + (List.replicate (w - s.length) ' ').length = _
  rw [List.length_replicate]
  omega

theorem length_pyTake (s : String) (n : Nat) : (pyTake s n).length = min n s.length := by
  show (s.toList.take n).length = _
  rw [List.length_take]
  rfl

theorem length_decChars (n : Nat) : (decChars n).length = numDigitsPy n := by
  unfold decChars numDigitsPy
  split
  · simp
  · simp

theorem length_pyFmt09d (n : Nat) : (pyFmt09d n).length = max 9 (numDigitsPy n) := by
  unfold pyFmt09d
  rw [length_mkStr, List.length_append, List.length_replicate, length_decChars]
  omega

theorem numDigitsPy_le_nine (n : Nat) (h : n < 10 ^ 9) : numDigitsPy n ≤ 9 := by
  unfold numDigitsPy
  split
  · omega
  · rename_i hn
    rw [Nat.digits_len 10 n (by norm_num) hn]
    have := (Nat.lt_pow_iff_log_lt (by norm_num : 1 < 10) hn).mp h
    omega

theorem numDigitsPy_ten_digit (n : Nat) (h9 : 10 ^ 9 ≤ n) (h10 : n < 10 ^ 10) :
    numDigitsPy n = 10 := by
  unfold numDigitsPy
  have hn : n ≠ 0 := by positivity
  rw [if_neg hn, Nat.digits_len 10 n (by norm_num) hn]
  have h1 := (Nat.lt_pow_iff_log_lt (by norm_num : 1 < 10) hn).mp h10
  have h2 := (Nat.pow_le_iff_le_log (by norm_num : 1 < 10) hn).mp h9
  omega

theorem length_name_from (cs : Option String) (hex : String) :
    (name_from_callsign_or_hex cs hex).length = 9 := by
  unfold name_from_callsign_or_hex
  rcases normalize_callsign cs with _ | n
  · rw [length_pyLjust, length_pyTake]
    omega
  · rw [length_pyLjust, length_pyTake]
    omega

/-- Shape projection on a decoder result: true exactly when the decoder
returned an accepted record rather than a rejection or an exception. -/
def decodeAccepts (r : Except Unit (Option PosInfo × Option String)) : Bool :=
  match r with
  | .ok (some _, _) => true
  | _ => false

/-- A 96-bit type-27 message whose 17-bit latitude field is all ones (the
raw sentinel 0x1FFFF) and whose longitude field is zero. -/
def c7bits : List Bool :=
  [false, true, true, false, true, true] ++ List.replicate 38 false ++
    List.replicate 18 false ++ List.replicate 17 true ++ List.replicate 17 false

/-- C7: the spec demands that decode_longrange reject a record whose raw
17-bit latitude field holds the sentinel 0x1FFFF.  The code compares the
already sign-decoded latitude against 0x1FFFF, so the all-ones field reads
as -1 and the record is accepted; moreover the signed 17-bit value is
always below 0x1FFFF, so the latitude half of the sentinel test can never
fire on any bit string. -/
theorem c7_type27_lat_sentinel_dead :
    (c7bits.drop 62).take 17 = List.replicate 17 true
    ∧ sRead c7bits 62 17 = -1
    ∧ decodeAccepts (decode_longrange c7bits) = true
    ∧ ∀ bits : List Bool, sRead bits 62 17 < 131071 :=
  ⟨by decide, by decide, by decide, fun bits => sRead_17_lt_sentinel bits 62⟩

/-- C9: the line !AIVDM,1,1,,A,,0*00 carries an empty payload; parse_nmea
accepts it and hands the empty payload to the decode chain, where
decode_static reads the message type before any length check, so int of an
empty bit string raises (modelled as Except.error) and the ValueError
escapes to the ais_worker handler, which reconnects the APRS socket.  The
claim that the chain is total on every line is therefore false. -/
theorem c9_empty_payload_raises :
    (parse_nmea fragInit "!AIVDM,1,1,,A,,0*00").2 = (some ("", 0), none)
    ∧ ais_handle_payload "" 0 = .error () :=
  ⟨by decide, rfl⟩

/-- C2 counterexample: the MMSI field of an AIS message is 30 bits wide,
and 2 to the 30 minus 1 is a ten-digit number, so the {:09d} and {:<9s}
format pair produces a ten-character object name: the claimed nine-character
width fails for MMSIs of one billion and above. -/
theorem c2_counterexample :
    1073741823 < 2 ^ 30 ∧ (aisObjNameField 1073741823).length = 10 := by
  constructor
  · norm_num
  · unfold aisObjNameField
    rw [length_pyLjust, length_pyFmt09d,
      numDigitsPy_ten_digit 1073741823 (by norm_num) (by norm_num)]
    omega

/-- C2 (amended): for every MMSI below one billion the AIS object-name
field is exactly nine characters; the ADS-B object name built by
name_from_callsign_or_hex is exactly nine characters for every input; and
every APRS timestamp ends in the literal z.  The original claim, which
asserted the nine-character width for every 30-bit MMSI, fails for MMSIs
of one billion and above. -/
theorem c2_name_width_amended :
    (∀ mmsi : Nat, mmsi < 10 ^ 9 → (aisObjNameField mmsi).length = 9)
    ∧ (∀ cs : Option String, ∀ hex : String, (name_from_callsign_or_hex cs hex).length = 9)
    ∧ (∀ hhmmss : String, (aprsTimestamp hhmmss).toList.getLast? = some 'z') := by
  refine ⟨fun mmsi h => ?_, fun cs hex => length_name_from cs hex, fun hhmmss => ?_⟩
  · unfold aisObjNameField
    rw [length_pyLjust, length_pyFmt09d]
    have := numDigitsPy_le_nine mmsi h
    omega
  · unfold aprsTimestamp
    have : (hhmmss ++ "z").toList = hhmmss.toList ++ ['z'] := by
      simp [String.toList]
    rw [this, List.getLast?_append]
    rfl

/-- C2 witness: the amended width statement applied to the nine-digit MMSI
366999999. -/
theorem c2_name_width_witness :
    366999999 < 10 ^ 9 ∧ (aisObjNameField 366999999).length = 9 :=
  ⟨by norm_num, c2_name_width_amended.1 366999999 (by norm_num)⟩

theorem c10_parse_sbs :
    (∀ (pyF : String → Option ℚ) (pyI : String → Option ℤ) (line : String) (r : Msg),
      parse_sbs pyF pyI line = some r →
        (pySplit (pyStrip line) ',').length ≥ 22
        ∧ fget (pySplit (pyStrip line) ',') 0 = "MSG"
        ∧ (pyI (fget (pySplit (pyStrip line) ',') 1) = some 3
            ∨ pyI (fget (pySplit (pyStrip line) ',') 1) = some 4))
    ∧ (∀ (pyF : String → Option ℚ) (pyI : String → Option ℤ) (line : String),
        (pySplit (pyStrip line) ',').length < 22 → parse_sbs pyF pyI line = none)
    ∧ (∀ (pyF : String → Option ℚ) (pyI : String → Option ℤ) (f1 f2 : List String),
        f1.length ≥ 22 → f2.length ≥ 22 → (∀ i, i < 16 → fget f1 i = fget f2 i) →
        parse_sbs_fields pyF pyI f1 = parse_sbs_fields pyF pyI f2)
    ∧ (∀ (pyF : String → Option ℚ) (pyI : String → Option ℤ) (f : List String) (r : Msg),
        parse_sbs_fields pyF pyI f = some r →
          r.alt = (if fget f 11 ≠ "" then pyF (fget f 11) else none)
          ∧ r.gs = (if fget f 12 ≠ "" then pyF (fget f 12) else none)
          ∧ r.trk = (if fget f 13 ≠ "" then pyF (fget f 13) else none)) := by
  refine ⟨?_, ?_, ?_, ?_⟩
  · intro pyF pyI line r h
    unfold parse_sbs parse_sbs_fields at h
    split at h
    · exact absurd h (by simp)
    · rename_i hcond
      push_neg at hcond
      refine ⟨by omega, hcond.2, ?_⟩
      split at h
      · exact absurd h (by simp)
      · rename_i st hst
        split at h
        · exact absurd h (by simp)
        · rename_i hsub
          push_neg at hsub
          rcases Decidable.em (st = 3) with h3 | h3
          · left; rw [hst, h3]
          · right; rw [hst, hsub h3]
  · intro pyF pyI line h
    unfold parse_sbs parse_sbs_fields
    rw [if_pos (Or.inl h)]
  · intro pyF pyI f1 f2 h1 h2 hag
    have e0 := hag 0 (by norm_num)
    have e1 := hag 1 (by norm_num)
    have e4 := hag 4 (by norm_num)
    have e10 := hag 10 (by norm_num)
    have e11 := hag 11 (by norm_num)
    have e12 := hag 12 (by norm_num)
    have e13 := hag 13 (by norm_num)
    have e14 := hag 14 (by norm_num)
    have e15 := hag 15 (by norm_num)
    have c1 : (f1.length < 22) = False := eq_false (by omega)
    have c2 : (f2.length < 22) = False := eq_false (by omega)
    have d1 : (f1.length > 10) = True := eq_true (by omega)
    have d2 : (f2.length > 10) = True := eq_true (by omega)
    unfold parse_sbs_fields
    rw [e0, e1, e4, e10, e11, e12, e13, e14, e15]
    simp only [c1, c2, d1, d2, false_or, true_and]
  · intro pyF pyI f r h
    unfold parse_sbs_fields at h
    split at h
    · exact absurd h (by simp)
    · split at h
      · exact absurd h (by simp)
      · split at h
        · exact absurd h (by simp)
        · split at h
          · injection h with h
            subst h
            exact ⟨rfl, rfl, rfl⟩
          · exact absurd h (by simp)

def c10pyF : String → Option ℚ := fun s => if s = "42.95" then some 42 else none
def c10pyI : String → Option ℤ := fun s => if s = "3" then some 3 else none
def c10line : String := "MSG,3,1,1,ABC123,1,d,t,d,t,UAL123,9000,410,270,42.95,42.95,,,,,,0"

theorem c10_parse_sbs_witness :
    (pySplit (pyStrip c10line) ',').length = 22
    ∧ (∃ r : Msg, parse_sbs c10pyF c10pyI c10line = some r)
    ∧ fget (pySplit (pyStrip c10line) ',') 0 = "MSG" := by
  have hr : parse_sbs c10pyF c10pyI c10line =
      some { icao := some "ABC123", callsign := some "UAL123", lat := 42, lon := 42,
             trk := none, gs := none, alt := none } := by decide
  exact ⟨by decide, ⟨_, hr⟩, (c10_parse_sbs.1 c10pyF c10pyI c10line _ hr).2.1⟩

/-- Change-detection predicate exactly as the claim words it: the circular
track comparison min(|a-b|, 360-|a-b|) is taken on the track values
themselves. -/
def specDeltaRaw (p c : Msg) : Prop :=
  |c.lat - p.lat| ≥ EPS_LATLON_DEG ∨ |c.lon - p.lon| ≥ EPS_LATLON_DEG
  ∨ (∃ a b, c.alt = some a ∧ p.alt = some b ∧ |a - b| ≥ EPS_ALT_FT)
  ∨ (∃ a b, c.gs = some a ∧ p.gs = some b ∧ |a - b| ≥ EPS_GS_KT)
  ∨ (∃ a b, c.trk = some a ∧ p.trk = some b ∧ min |a - b| (360 - |a - b|) ≥ (EPS_TRK_DEG : ℚ))
  ∨ c.alt.isNone ≠ p.alt.isNone ∨ c.trk.isNone ≠ p.trk.isNone ∨ c.gs.isNone ≠ p.gs.isNone

/-- Change-detection predicate as the code computes it: track values are
truncated with int() and reduced modulo 360 before the circular
comparison. -/
def specDeltaTrunc (p c : Msg) : Prop :=
  |c.lat - p.lat| ≥ EPS_LATLON_DEG ∨ |c.lon - p.lon| ≥ EPS_LATLON_DEG
  ∨ (∃ a b, c.alt = some a ∧ p.alt = some b ∧ |a - b| ≥ EPS_ALT_FT)
  ∨ (∃ a b, c.gs = some a ∧ p.gs = some b ∧ |a - b| ≥ EPS_GS_KT)
  ∨ (∃ a b, c.trk = some a ∧ p.trk = some b ∧ circDiffTrunc a b ≥ EPS_TRK_DEG)
  ∨ c.alt.isNone ≠ p.alt.isNone ∨ c.trk.isNone ≠ p.trk.isNone ∨ c.gs.isNone ≠ p.gs.isNone

/-- Emission decision as the claim words it. -/
def specSendRaw (dist : ℚ → ℚ → ℚ → ℚ → ℚ) (prev : Option SentInfo) (c : Msg) (now : Nat) : Prop :=
  prev = none
  ∨ (∃ p, prev = some p ∧ dist p.lat p.lon c.lat c.lon ≥ MIN_MOVE_MI)
  ∨ (∃ p, prev = some p ∧ (now : ℤ) - (p.time : ℤ) ≥ MIN_UPDATE_SEC ∧ specDeltaRaw p.state c)

/-- Emission decision with the truncated circular track comparison. -/
def specSendTrunc (dist : ℚ → ℚ → ℚ → ℚ → ℚ) (prev : Option SentInfo) (c : Msg) (now : Nat) : Prop :=
  prev = none
  ∨ (∃ p, prev = some p ∧ dist p.lat p.lon c.lat c.lon ≥ MIN_MOVE_MI)
  ∨ (∃ p, prev = some p ∧ (now : ℤ) - (p.time : ℤ) ≥ MIN_UPDATE_SEC ∧ specDeltaTrunc p.state c)

theorem state_changed_iff (p c : Msg) : state_changed (some p) c = true ↔ specDeltaTrunc p c := by
  simp only [state_changed]
  unfold specDeltaTrunc
  split_ifs with h1 h2 h3 h4 h5 h6 h7 h8
  · simp only [true_iff]
    exact Or.inl h1
  · simp only [true_iff]
    exact Or.inr (Or.inl h2)
  · simp only [true_iff]
    exact Or.inr (Or.inr (Or.inr (Or.inr (Or.inr (Or.inl h3)))))
  · simp only [true_iff]
    rcases hc : c.alt with _ | a <;> rcases hp : p.alt with _ | b <;> rw [hc, hp] at h4 <;>
      simp at h4
    exact Or.inr (Or.inr (Or.inl ⟨a, b, rfl, rfl, h4⟩))
  · simp only [true_iff]
    exact Or.inr (Or.inr (Or.inr (Or.inr (Or.inr (Or.inr (Or.inl h5))))))
  · simp only [true_iff]
    rcases hc : c.trk with _ | a <;> rcases hp : p.trk with _ | b <;> rw [hc, hp] at h6 <;>
      simp at h6
    exact Or.inr (Or.inr (Or.inr (Or.inr (Or.inl ⟨a, b, rfl, rfl, h6⟩))))
  · simp only [true_iff]
    exact Or.inr (Or.inr (Or.inr (Or.inr (Or.inr (Or.inr (Or.inr h7))))))
  · simp only [true_iff]
    rcases hc : c.gs with _ | a <;> rcases hp : p.gs with _ | b <;> rw [hc, hp] at h8 <;>
      simp at h8
    exact Or.inr (Or.inr (Or.inr (Or.inl ⟨a, b, rfl, rfl, h8⟩)))
  · simp only [false_iff]
    intro hsp
    rcases hsp with h | h | ⟨a, b, hca, hpb, hge⟩ | ⟨a, b, hca, hpb, hge⟩ |
      ⟨a, b, hca, hpb, hge⟩ | h | h | h
    · exact h1 h
    · exact h2 h
    · rw [hca, hpb] at h4
      simp at h4
      exact absurd hge (by simpa using h4)
    · rw [hca, hpb] at h8
      simp at h8
      exact absurd hge (by simpa using h8)
    · rw [hca, hpb] at h6
      simp at h6
      exact absurd hge (by simpa using h6)
    · exact h3 h
    · exact h5 h
    · exact h7 h

/-- C6 (amended): the ADS-B emission decision holds exactly when one of
the three claim conditions holds, with the circular track comparison taken
on int-truncated, mod-360 reduced values as the code computes it (the
claim as written takes it on the raw track values, which the
counterexample refutes). -/
theorem c6_need_send_amended (dist : ℚ → ℚ → ℚ → ℚ → ℚ) (prev : Option SentInfo) (m : Msg)
    (now : Nat) : need_send dist prev m now = true ↔ specSendTrunc dist prev m now := by
  cases prev with
  | none => simp [need_send, specSendTrunc]
  | some p =>
    simp only [need_send]
    unfold specSendTrunc
    split_ifs with hmv hch
    · simp only [true_iff]
      exact Or.inr (Or.inl ⟨p, rfl, of_decide_eq_true hmv⟩)
    · simp only [true_iff]
      rcases Bool.and_eq_true_iff.mp hch with ⟨hc, he⟩
      exact Or.inr (Or.inr ⟨p, rfl, of_decide_eq_true he, (state_changed_iff p.state m).mp hc⟩)
    · simp only [false_iff]
      intro hsp
      rcases hsp with h | ⟨q, hq, hd⟩ | ⟨q, hq, he, hdel⟩
      · simp at h
      · rw [Option.some_inj] at hq
        subst hq
        exact absurd (decide_eq_true hd) (by simpa using hmv)
      · rw [Option.some_inj] at hq
        subst hq
        have hsc : state_changed (some p.state) m = true := (state_changed_iff p.state m).mpr hdel
        rw [Bool.and_eq_true_iff] at hch
        push_neg at hch
        exact absurd (decide_eq_true he) (hch hsc)

def c6dist : ℚ → ℚ → ℚ → ℚ → ℚ := fun _ _ _ _ => 0

/-- Previously sent state: track 0.9 degrees, all else equal to the new
record. -/
def c6prev : SentInfo :=
  { time := 0
    state := { icao := none, callsign := none, lat := 1, lon := 1,
               trk := some (Rat.divInt 9 10), gs := some 100, alt := some 5000 }
    lat := 1, lon := 1, icao := "" }

/-- New record: track 3.8 degrees, a true circular change of 2.9 degrees,
below the 3-degree epsilon. -/
def c6cur : Msg :=
  { icao := none, callsign := none, lat := 1, lon := 1,
    trk := some (Rat.divInt 38 10), gs := some 100, alt := some 5000 }

/-- C6 counterexample: with last send 10 s ago, no movement and only the
track changed from 0.9 to 3.8 degrees, the code truncates to 0 and 3,
measures a circular difference of 3 and sends; the claim's comparison on
the raw values measures 2.9 and forbids the send. -/
theorem c6_counterexample :
    need_send c6dist (some c6prev) c6cur 10 = true
    ∧ ¬ specSendRaw c6dist (some c6prev) c6cur 10 := by
  constructor
  · unfold need_send state_changed c6dist c6prev c6cur circDiffTrunc pyTrunc
    norm_num [MIN_MOVE_MI, MIN_UPDATE_SEC, EPS_LATLON_DEG, EPS_ALT_FT, EPS_GS_KT, EPS_TRK_DEG,
      Rat.divInt_eq_div, Int.floor_eq_iff]
  · intro hsp
    rcases hsp with h | ⟨q, hq, hd⟩ | ⟨q, hq, he, hdel⟩
    · exact Option.noConfusion h
    · rw [Option.some_inj] at hq
      subst hq
      revert hd
      norm_num [c6dist, c6prev, MIN_MOVE_MI, Rat.divInt_eq_div]
    · rw [Option.some_inj] at hq
      subst hq
      rcases hdel with h | h | ⟨a, b, hca, hpb, hge⟩ | ⟨a, b, hca, hpb, hge⟩ |
        ⟨a, b, hca, hpb, hge⟩ | h | h | h
      · revert h
        norm_num [c6prev, c6cur, EPS_LATLON_DEG, Rat.divInt_eq_div]
      · revert h
        norm_num [c6prev, c6cur, EPS_LATLON_DEG, Rat.divInt_eq_div]
      · simp [c6prev, c6cur] at hca hpb
        subst hca
        subst hpb
        revert hge
        norm_num [EPS_ALT_FT]
      · simp [c6prev, c6cur] at hca hpb
        subst hca
        subst hpb
        revert hge
        norm_num [EPS_GS_KT]
      · simp [c6prev, c6cur] at hca hpb
        subst hca
        subst hpb
        have h1 : Rat.divInt 38 10 - Rat.divInt 9 10 = (29 : ℚ)/10 := by
          norm_num [Rat.divInt_eq_div]
        rw [h1] at hge
        have h2 : |(29 : ℚ)/10| = 29/10 := abs_of_pos (by norm_num)
        rw [h2] at hge
        have h3 : (EPS_TRK_DEG : ℚ) ≤ 29/10 := le_trans hge (min_le_left _ _)
        norm_num [EPS_TRK_DEG] at h3
        
      · simp [c6prev, c6cur] at h
      · simp [c6prev, c6cur] at h
      · simp [c6prev, c6cur] at h

theorem afterThrottle_landedBlock (dist : ℚ → ℚ → ℚ → ℚ → ℚ) (s : AdsbState) (m : Msg)
    (now : Nat) : (afterThrottle dist s m now).1.landedBlock = s.landedBlock := by
  unfold afterThrottle
  dsimp only
  rcases h : s.hexToName (icaoHexOf m) with _ | cur <;> simp only [h] <;> split_ifs <;> rfl

theorem throttlePhase_landedBlock (dist : ℚ → ℚ → ℚ → ℚ → ℚ) (s : AdsbState) (m : Msg)
    (now : Nat) : (throttlePhase dist s m now).1.landedBlock = s.landedBlock := by
  unfold throttlePhase
  dsimp only
  split_ifs with h1 h2 h3 <;> (try rw [afterThrottle_landedBlock]) <;> rfl

theorem adsbStep_eq_afterRange (dist : ℚ → ℚ → ℚ → ℚ → ℚ) (s : AdsbState) (m : Msg) (now : Nat)
    (hr1 : ¬(containsK s.lastSeen (trackedNameOf s m) = true ∧
      dist KBUF_LAT KBUF_LON m.lat m.lon > CLEAR_DISTANCE_MI))
    (hr2 : ¬(containsK s.lastSeen (trackedNameOf s m) = false ∧
      dist KBUF_LAT KBUF_LON m.lat m.lon > ADD_DISTANCE_MI)) :
    adsbStep dist s m now = afterRange dist s m now := by
  unfold adsbStep
  rw [if_neg hr1, if_neg hr2]

/-- C3 (amended): for a record of a track in the landed suppression set
(once the range gates pass), the record is silently ignored, with no state
change and no send, exactly when its altitude is known and at most
LANDED_ALT_FT = 1000 ft; the suppression is cleared exactly when the
altitude is unknown or above LAND_CLEAR_ALT = 1500 ft; a known altitude in
(1000, 1500] leaves the suppression in place but the record is processed.
The original claim said every record with unknown altitude or altitude at
most 1500 ft is ignored and only altitudes above 1500 ft clear the
suppression; the counterexample refutes it. -/
theorem c3_landed_suppression_amended (dist : ℚ → ℚ → ℚ → ℚ → ℚ) (s : AdsbState) (m : Msg)
    (now : Nat)
    (hr1 : ¬(containsK s.lastSeen (trackedNameOf s m) = true ∧
      dist KBUF_LAT KBUF_LON m.lat m.lon > CLEAR_DISTANCE_MI))
    (hr2 : ¬(containsK s.lastSeen (trackedNameOf s m) = false ∧
      dist KBUF_LAT KBUF_LON m.lat m.lon > ADD_DISTANCE_MI))
    (hb : s.landedBlock (trackedNameOf s m) = true) :
    ((m.alt = none ∨ (∃ a, m.alt = some a ∧ a > LAND_CLEAR_ALT)) →
        (adsbStep dist s m now).1.landedBlock (trackedNameOf s m) = false)
    ∧ ((∃ a, m.alt = some a ∧ a ≤ LANDED_ALT_FT) → adsbStep dist s m now = (s, ([] : List Emit)))
    ∧ ((∃ a, m.alt = some a ∧ LANDED_ALT_FT < a ∧ a ≤ LAND_CLEAR_ALT) →
        (adsbStep dist s m now).1.landedBlock (trackedNameOf s m) = true) := by
  rw [adsbStep_eq_afterRange dist s m now hr1 hr2]
  refine ⟨?_, ?_, ?_⟩
  · intro halt
    have hre : s.landedBlock (trackedNameOf s m) = true ∧
        (m.alt = none ∨ ∃ a, m.alt = some a ∧ a > LAND_CLEAR_ALT) := ⟨hb, halt⟩
    unfold afterRange
    dsimp only
    rw [if_pos hre]
    have hskip : ¬ ((sdel s.landedBlock (trackedNameOf s m)) (trackedNameOf s m) = true ∧
        (∃ a, m.alt = some a ∧ a ≤ LANDED_ALT_FT)) := by
      simp [sdel]
    rw [if_neg hskip]
    rcases halt with hn | ⟨a, ha, hgt⟩
    · rw [hn]
      dsimp only
      rw [throttlePhase_landedBlock]
      simp [sdel]
    · rw [ha]
      dsimp only
      have hna : ¬ a ≤ LANDED_ALT_FT := by
        unfold LANDED_ALT_FT
        unfold LAND_CLEAR_ALT at hgt
        intro hc
        nlinarith
      rw [if_neg hna]
      rw [throttlePhase_landedBlock]
      simp [sdel]
  · rintro ⟨a, ha, hle⟩
    have hnc : ¬ (s.landedBlock (trackedNameOf s m) = true ∧
        (m.alt = none ∨ ∃ b, m.alt = some b ∧ b > LAND_CLEAR_ALT)) := by
      rintro ⟨h1, hn | ⟨b, hbq, hgt⟩⟩
      · rw [ha] at hn
        exact Option.noConfusion hn
      · rw [ha] at hbq
        rw [Option.some_inj] at hbq
        subst hbq
        unfold LANDED_ALT_FT at hle
        unfold LAND_CLEAR_ALT at hgt
        nlinarith
    unfold afterRange
    dsimp only
    rw [if_neg hnc]
    rw [if_pos ⟨hb, ⟨a, ha, hle⟩⟩]
  · rintro ⟨a, ha, hgt, hle⟩
    have hnc : ¬ (s.landedBlock (trackedNameOf s m) = true ∧
        (m.alt = none ∨ ∃ b, m.alt = some b ∧ b > LAND_CLEAR_ALT)) := by
      rintro ⟨h1, hn | ⟨b, hbq, hgt2⟩⟩
      · rw [ha] at hn
        exact Option.noConfusion hn
      · rw [ha] at hbq
        rw [Option.some_inj] at hbq
        subst hbq
        exact absurd hgt2 (not_lt.mpr hle)
    have hns : ¬ (s.landedBlock (trackedNameOf s m) = true ∧
        (∃ b, m.alt = some b ∧ b ≤ LANDED_ALT_FT)) := by
      rintro ⟨h1, b, hbq, hble⟩
      rw [ha] at hbq
      rw [Option.some_inj] at hbq
      subst hbq
      exact absurd hble (not_le.mpr hgt)
    unfold afterRange
    dsimp only
    rw [if_neg hnc]
    rw [if_neg hns]
    rw [ha]
    dsimp only
    rw [if_neg (not_le.mpr hgt)]
    rw [throttlePhase_landedBlock]
    exact hb

def c3dist : ℚ → ℚ → ℚ → ℚ → ℚ := fun _ _ _ _ => 10

/-- State with the nine-character name ABC123 (space padded) in the landed
suppression set and no other entries. -/
def c3state : AdsbState := { adsbInit with landedBlock := fun n => n == "ABC123   " }

/-- Record for that track with unknown altitude. -/
def c3msg : Msg :=
  { icao := some "ABC123", callsign := none, lat := 1, lon := 1,
    trk := none, gs := none, alt := none }

/-- C3 counterexample: the claim says a suppressed track's record with
unknown altitude is silently ignored and the suppression survives.  The
code clears the suppression on the unknown-altitude record and proceeds to
send a non-delete line for it. -/
theorem c3_counterexample :
    c3state.landedBlock (trackedNameOf c3state c3msg) = true
    ∧ c3msg.alt = none
    ∧ (adsbStep c3dist c3state c3msg 50).2.map (fun e => e.isDel) = [false]
    ∧ (adsbStep c3dist c3state c3msg 50).1.landedBlock (trackedNameOf c3state c3msg) = false := by
  decide

/-- Record for the suppressed track at 800 ft. -/
def c3wmsg : Msg :=
  { icao := some "ABC123", callsign := none, lat := 1, lon := 1,
    trk := none, gs := none, alt := some 800 }

/-- C3 witness: the amended statement applied to a suppressed track whose
record reports 800 ft; the record is silently dropped with no state
change. -/
theorem c3_landed_suppression_witness :
    c3state.landedBlock (trackedNameOf c3state c3wmsg) = true
    ∧ adsbStep c3dist c3state c3wmsg 50 = (c3state, ([] : List Emit)) :=
  ⟨by decide,
    (c3_landed_suppression_amended c3dist c3state c3wmsg 50 (by decide) (by decide)
      (by decide)).2.1 ⟨800, rfl, by decide⟩⟩

theorem lookupK_eraseK (l : List (String × Nat)) (k : String) :
    lookupK (eraseK l k) k = none := by
  unfold lookupK eraseK
  rw [List.find?_eq_none.mpr]
  · rfl
  · intro x hx
    rcases List.mem_filter.mp hx with ⟨hmem, hp⟩
    simpa using hp

/-- C5: range hysteresis of the ADS-B manager.  A track absent from
last_seen whose record lies beyond ADD_DISTANCE_MI = 35 mi is dropped with
no state change and no emission; a track present in last_seen whose record
lies beyond CLEAR_DISTANCE_MI = 40 mi is cleared on that record, with one
delete line at the last-sent position and every per-track entry removed; a
track present in last_seen at up to 40 mi passes the range gates and is
processed normally. -/
theorem c5_range_hysteresis (dist : ℚ → ℚ → ℚ → ℚ → ℚ) (s : AdsbState) (m : Msg) (now : Nat) :
    (containsK s.lastSeen (trackedNameOf s m) = false →
      dist KBUF_LAT KBUF_LON m.lat m.lon > ADD_DISTANCE_MI →
      adsbStep dist s m now = (s, ([] : List Emit)))
    ∧ (∀ li : SentInfo, containsK s.lastSeen (trackedNameOf s m) = true →
        dist KBUF_LAT KBUF_LON m.lat m.lon > CLEAR_DISTANCE_MI →
        s.lastSent (trackedNameOf s m) = some li →
        s.hexToName (icaoHexOf m) ≠ some "" →
        (adsbStep dist s m now).2 =
            [⟨trackedNameOf s m, li.lat, li.lon, true, now⟩]
        ∧ lookupK (adsbStep dist s m now).1.lastSeen (trackedNameOf s m) = none
        ∧ (adsbStep dist s m now).1.lastSent (trackedNameOf s m) = none
        ∧ (adsbStep dist s m now).1.lowAltSince (trackedNameOf s m) = none
        ∧ (adsbStep dist s m now).1.landedBlock (trackedNameOf s m) = false
        ∧ (adsbStep dist s m now).1.nameToHex (trackedNameOf s m) = none
        ∧ (adsbStep dist s m now).1.hexToName (icaoHexOf m) = none)
    ∧ (containsK s.lastSeen (trackedNameOf s m) = true →
        ¬ dist KBUF_LAT KBUF_LON m.lat m.lon > CLEAR_DISTANCE_MI →
        adsbStep dist s m now = afterRange dist s m now) := by
  refine ⟨?_, ?_, ?_⟩
  · intro hc hd
    unfold adsbStep
    rw [if_neg (by rintro ⟨h1, h2⟩; rw [hc] at h1; exact Bool.noConfusion h1)]
    rw [if_pos ⟨hc, hd⟩]
  · intro li hc hd hli hne
    unfold adsbStep
    rw [if_pos ⟨hc, hd⟩]
    unfold rangeClear
    dsimp only
    rw [hli]
    refine ⟨rfl, lookupK_eraseK s.lastSeen (trackedNameOf s m), ?_, ?_, ?_, ?_, ?_⟩
    · simp [frem]
    · simp [frem]
    · simp [sdel]
    · simp [frem]
    · rcases hx : s.hexToName (icaoHexOf m) with _ | c
      · exact hx
      · have hcne : ¬ c = "" := by
          intro hceq
          subst hceq
          exact hne hx
        dsimp only
        rw [if_neg hcne]
        simp [frem]
  · intro hc hd
    unfold adsbStep
    rw [if_neg (by rintro ⟨h1, h2⟩; exact hd h2)]
    rw [if_neg (by rintro ⟨h1, h2⟩; rw [hc] at h1; exact Bool.noConfusion h1)]

def c5dist : ℚ → ℚ → ℚ → ℚ → ℚ := fun _ _ _ _ => 50

def c5li : SentInfo :=
  { time := 5
    state := { icao := none, callsign := some "N1", lat := 2, lon := 3,
               trk := none, gs := none, alt := none }
    lat := 2, lon := 3, icao := "" }

/-- State tracking the single name N1 (space padded to nine characters). -/
def c5state : AdsbState :=
  { adsbInit with
      lastSeen := [("N1       ", 5)]
      lastSent := fun n => if n = "N1       " then some c5li else none }

/-- Record for that track, 50 mi out under the c5dist abstraction. -/
def c5msg : Msg :=
  { icao := none, callsign := some "N1", lat := 9, lon := 9,
    trk := none, gs := none, alt := none }

/-- C5 witness: the hysteresis statement applied to a tracked object whose
record is beyond the clear radius; one delete is emitted at the last-sent
position and the per-track entries vanish. -/
theorem c5_range_hysteresis_witness :
    containsK c5state.lastSeen (trackedNameOf c5state c5msg) = true
    ∧ (adsbStep c5dist c5state c5msg 60).2 =
        [⟨trackedNameOf c5state c5msg, c5li.lat, c5li.lon, true, 60⟩]
    ∧ lookupK (adsbStep c5dist c5state c5msg 60).1.lastSeen (trackedNameOf c5state c5msg) = none := by
  have h := (c5_range_hysteresis c5dist c5state c5msg 60).2.1 c5li (by decide) (by decide)
    (by decide) (by decide)
  exact ⟨by decide, h.1, h.2.1⟩

theorem fupd_self {κ α : Type} [DecidableEq κ] (f : κ → Option α) (k : κ) (v : α) :
    fupd f k v k = some v := by simp [fupd]

theorem fupd_ne {κ α : Type} [DecidableEq κ] (f : κ → Option α) (k x : κ) (v : α)
    (h : x ≠ k) : fupd f k v x = f x := by simp [fupd, h]

theorem frem_self {κ α : Type} [DecidableEq κ] (f : κ → Option α) (k : κ) :
    frem f k k = none := by simp [frem]

theorem frem_ne {κ α : Type} [DecidableEq κ] (f : κ → Option α) (k x : κ)
    (h : x ≠ k) : frem f k x = f x := by simp [frem, h]

theorem frem_none {κ α : Type} [DecidableEq κ] (f : κ → Option α) (k x : κ)
    (h : f x = none) : frem f k x = none := by
  by_cases hx : x = k
  · rw [hx]
    exact frem_self f k
  · rw [frem_ne f k x hx]
    exact h

/-- The hex-to-name and name-to-hex dicts form a bijection: every entry of
either direction has its mirror entry in the other. -/
def BijInv (s : AdsbState) : Prop :=
  (∀ h n, s.hexToName h = some n → s.nameToHex n = some h)
  ∧ (∀ n h, s.nameToHex n = some h → s.hexToName h = some n)

/-- The record does not collide: its desired object name is either
unclaimed or already paired with the record's own ICAO hex. -/
def stepNoCollide (s : AdsbState) (m : Msg) : Prop :=
  s.nameToHex (desiredNameOf s m) = none
  ∨ s.hexToName (icaoHexOf m) = some (desiredNameOf s m)

theorem desiredNameOf_ne_empty (s : AdsbState) (m : Msg) : desiredNameOf s m ≠ "" := by
  intro h
  have hl := length_name_from (callsignOf s m) (icaoHexOf m)
  unfold desiredNameOf at h
  rw [h] at hl
  simp at hl

/-- Map part of the range-clear and dwell-delete removals. -/
theorem bij_pop (htn nth : String → Option String) (icao desired : String)
    (hinv1 : ∀ h n, htn h = some n → nth n = some h)
    (hinv2 : ∀ n h, nth n = some h → htn h = some n)
    (hnc : nth desired = none ∨ htn icao = some desired)
    (hdne : desired ≠ "") :
    (∀ h n,
        (match htn icao with
          | some c => if c = "" then htn else frem htn icao
          | none => htn) h = some n →
        frem nth (pyOrStr (htn icao) desired) n = some h)
    ∧ (∀ n h, frem nth (pyOrStr (htn icao) desired) n = some h →
        (match htn icao with
          | some c => if c = "" then htn else frem htn icao
          | none => htn) h = some n) := by
  rcases hcur : htn icao with _ | c
  · dsimp only
    have htr : pyOrStr none desired = desired := rfl
    rw [htr]
    have hnd : nth desired = none := by
      rcases hnc with h | h
      · exact h
      · rw [hcur] at h
        exact Option.noConfusion h
    constructor
    · intro h n hh
      by_cases hn : n = desired
      · subst hn
        exact absurd (hinv1 h n hh) (by rw [hnd]; simp)
      · rw [frem_ne nth desired n hn]
        exact hinv1 h n hh
    · intro n h hh
      by_cases hn : n = desired
      · subst hn
        rw [frem_self] at hh
        exact Option.noConfusion hh
      · rw [frem_ne nth desired n hn] at hh
        exact hinv2 n h hh
  · dsimp only
    by_cases hce : c = ""
    · subst hce
      rw [if_pos rfl]
      have htr : pyOrStr (some "") desired = desired := rfl
      rw [htr]
      have hnd : nth desired = none := by
        rcases hnc with h | h
        · exact h
        · rw [hcur] at h
          rw [Option.some_inj] at h
          exact absurd h.symm hdne
      constructor
      · intro h n hh
        by_cases hn : n = desired
        · subst hn
          exact absurd (hinv1 h n hh) (by rw [hnd]; simp)
        · rw [frem_ne nth desired n hn]
          exact hinv1 h n hh
      · intro n h hh
        by_cases hn : n = desired
        · subst hn
          rw [frem_self] at hh
          exact Option.noConfusion hh
        · rw [frem_ne nth desired n hn] at hh
          exact hinv2 n h hh
    · rw [if_neg hce]
      have htr : pyOrStr (some c) desired = c := by simp [pyOrStr, hce]
      rw [htr]
      have hcic : nth c = some icao := hinv1 icao c hcur
      constructor
      · intro h n hh
        by_cases hhi : h = icao
        · subst hhi
          rw [frem_self] at hh
          exact Option.noConfusion hh
        · rw [frem_ne htn icao h hhi] at hh
          by_cases hn : n = c
          · subst hn
            have := hinv1 h n hh
            rw [hcic] at this
            rw [Option.some_inj] at this
            exact absurd this.symm hhi
          · rw [frem_ne nth c n hn]
            exact hinv1 h n hh
      · intro n h hh
        by_cases hn : n = c
        · subst hn
          rw [frem_self] at hh
          exact Option.noConfusion hh
        · rw [frem_ne nth c n hn] at hh
          have := hinv2 n h hh
          by_cases hhi : h = icao
          · subst hhi
            rw [hcur] at this
            rw [Option.some_inj] at this
            exact absurd this.symm hn
          · rw [frem_ne htn icao h hhi]
            exact this

/-- Map part of the rename. -/
theorem bij_rename (htn nth : String → Option String) (icao cur desired : String)
    (hinv1 : ∀ h n, htn h = some n → nth n = some h)
    (hinv2 : ∀ n h, nth n = some h → htn h = some n)
    (hcur : htn icao = some cur) (hcd : desired ≠ cur)
    (hnc : nth desired = none ∨ htn icao = some desired) :
    (∀ h n, fupd htn icao desired h = some n →
        fupd (frem nth cur) desired icao n = some h)
    ∧ (∀ n h, fupd (frem nth cur) desired icao n = some h →
        fupd htn icao desired h = some n) := by
  have hnd : nth desired = none := by
    rcases hnc with h | h
    · exact h
    · rw [hcur] at h
      rw [Option.some_inj] at h
      exact absurd h.symm hcd
  have hcic : nth cur = some icao := hinv1 icao cur hcur
  constructor
  · intro h n hh
    by_cases hhi : h = icao
    · subst hhi
      rw [fupd_self] at hh
      rw [Option.some_inj] at hh
      subst hh
      rw [fupd_self]
    · rw [fupd_ne htn icao h desired hhi] at hh
      by_cases hn : n = desired
      · subst hn
        exact absurd (hinv1 h n hh) (by rw [hnd]; simp)
      · rw [fupd_ne (frem nth cur) desired n icao hn]
        by_cases hnc2 : n = cur
        · subst hnc2
          have := hinv1 h n hh
          rw [hcic] at this
          rw [Option.some_inj] at this
          exact absurd this.symm hhi
        · rw [frem_ne nth cur n hnc2]
          exact hinv1 h n hh
  · intro n h hh
    by_cases hn : n = desired
    · subst hn
      rw [fupd_self] at hh
      rw [Option.some_inj] at hh
      subst hh
      rw [fupd_self]
    · rw [fupd_ne (frem nth cur) desired n icao hn] at hh
      by_cases hnc2 : n = cur
      · subst hnc2
        rw [frem_self] at hh
        exact Option.noConfusion hh
      · rw [frem_ne nth cur n hnc2] at hh
        have := hinv2 n h hh
        by_cases hhi : h = icao
        · subst hhi
          rw [hcur] at this
          rw [Option.some_inj] at this
          exact absurd this.symm hnc2
        · rw [fupd_ne htn icao h desired hhi]
          exact this

/-- Map part of the admission. -/
theorem bij_insert (htn nth : String → Option String) (icao tracked : String)
    (hinv1 : ∀ h n, htn h = some n → nth n = some h)
    (hinv2 : ∀ n h, nth n = some h → htn h = some n)
    (hicao : htn icao = none) (hnone : nth tracked = none) :
    (∀ h n, fupd htn icao tracked h = some n → fupd nth tracked icao n = some h)
    ∧ (∀ n h, fupd nth tracked icao n = some h → fupd htn icao tracked h = some n) := by
  constructor
  · intro h n hh
    by_cases hhi : h = icao
    · subst hhi
      rw [fupd_self] at hh
      rw [Option.some_inj] at hh
      subst hh
      rw [fupd_self]
    · rw [fupd_ne htn icao h tracked hhi] at hh
      by_cases hn : n = tracked
      · subst hn
        exact absurd (hinv1 h n hh) (by rw [hnone]; simp)
      · rw [fupd_ne nth tracked n icao hn]
        exact hinv1 h n hh
  · intro n h hh
    by_cases hn : n = tracked
    · subst hn
      rw [fupd_self] at hh
      rw [Option.some_inj] at hh
      subst hh
      rw [fupd_self]
    · rw [fupd_ne nth tracked n icao hn] at hh
      have := hinv2 n h hh
      by_cases hhi : h = icao
      · subst hhi
        rw [hicao] at this
        exact Option.noConfusion this
      · rw [fupd_ne htn icao h tracked hhi]
        exact this

/-- Map part of one TTL sweep removal; needs no collision hypothesis. -/
theorem bij_sweep (htn nth : String → Option String) (n0 : String)
    (hinv1 : ∀ h n, htn h = some n → nth n = some h)
    (hinv2 : ∀ n h, nth n = some h → htn h = some n)
    (hne : htn "" = none) :
    (∀ h n,
        (match nth n0 with
          | some hx => if hx = "" then htn else frem htn hx
          | none => htn) h = some n →
        frem nth n0 n = some h)
    ∧ (∀ n h, frem nth n0 n = some h →
        (match nth n0 with
          | some hx => if hx = "" then htn else frem htn hx
          | none => htn) h = some n) := by
  rcases hn0 : nth n0 with _ | hx
  · dsimp only
    constructor
    · intro h n hh
      by_cases hn : n = n0
      · subst hn
        exact absurd (hinv1 h n hh) (by rw [hn0]; simp)
      · rw [frem_ne nth n0 n hn]
        exact hinv1 h n hh
    · intro n h hh
      by_cases hn : n = n0
      · subst hn
        rw [frem_self] at hh
        exact Option.noConfusion hh
      · rw [frem_ne nth n0 n hn] at hh
        exact hinv2 n h hh
  · dsimp only
    have hxn : htn hx = some n0 := hinv2 n0 hx hn0
    have hxe : ¬ hx = "" := by
      intro h
      rw [h, hne] at hxn
      exact Option.noConfusion hxn
    rw [if_neg hxe]
    constructor
    · intro h n hh
      by_cases hhx : h = hx
      · subst hhx
        rw [frem_self] at hh
        exact Option.noConfusion hh
      · rw [frem_ne htn hx h hhx] at hh
        by_cases hn : n = n0
        · subst hn
          have := hinv1 h n hh
          rw [hn0] at this
          rw [Option.some_inj] at this
          exact absurd this.symm hhx
        · rw [frem_ne nth n0 n hn]
          exact hinv1 h n hh
    · intro n h hh
      by_cases hn : n = n0
      · subst hn
        rw [frem_self] at hh
        exact Option.noConfusion hh
      · rw [frem_ne nth n0 n hn] at hh
        have := hinv2 n h hh
        by_cases hhx : h = hx
        · subst hhx
          rw [hxn] at this
          rw [Option.some_inj] at this
          exact absurd this.symm hn
        · rw [frem_ne htn hx h hhx]
          exact this

theorem rangeClear_bij (s : AdsbState) (m : Msg) (now : Nat) (hinv : BijInv s)
    (hnc : stepNoCollide s m) : BijInv (rangeClear s m now).1 := by
  unfold rangeClear
  dsimp only
  exact bij_pop s.hexToName s.nameToHex (icaoHexOf m) (desiredNameOf s m) hinv.1 hinv.2 hnc
    (desiredNameOf_ne_empty s m)

theorem dwellDelete_bij (s : AdsbState) (m : Msg) (now : Nat) (hinv : BijInv s)
    (hnc : stepNoCollide s m) : BijInv (dwellDelete s m now).1 := by
  unfold dwellDelete
  dsimp only
  exact bij_pop s.hexToName s.nameToHex (icaoHexOf m) (desiredNameOf s m) hinv.1 hinv.2 hnc
    (desiredNameOf_ne_empty s m)

theorem afterThrottle_bij (dist : ℚ → ℚ → ℚ → ℚ → ℚ) (s : AdsbState) (m : Msg) (now : Nat)
    (hinv : BijInv s) (hnc : stepNoCollide s m) : BijInv (afterThrottle dist s m now).1 := by
  unfold afterThrottle
  dsimp only
  rcases hcur : s.hexToName (icaoHexOf m) with _ | cur
  · dsimp only
    have htrack : trackedNameOf s m = desiredNameOf s m := by
      unfold trackedNameOf
      rw [hcur]
      rfl
    rw [htrack]
    split_ifs with hadm hsend hsend
    · have hnone : s.nameToHex (desiredNameOf s m) = none := by
        rcases hnc with h | h
        · exact h
        · rw [hcur] at h
          exact Option.noConfusion h
      unfold BijInv
      dsimp only
      exact bij_insert s.hexToName s.nameToHex (icaoHexOf m) (desiredNameOf s m)
        hinv.1 hinv.2 hcur hnone
    · have hnone : s.nameToHex (desiredNameOf s m) = none := by
        rcases hnc with h | h
        · exact h
        · rw [hcur] at h
          exact Option.noConfusion h
      unfold BijInv
      dsimp only
      exact bij_insert s.hexToName s.nameToHex (icaoHexOf m) (desiredNameOf s m)
        hinv.1 hinv.2 hcur hnone
    · exact hinv
    · exact hinv
  · dsimp only
    split_ifs with hren hadm hsend hsend hadm hsend hsend
    · exact absurd hadm.2 (by simp [fupd])
    · exact absurd hadm.2 (by simp [fupd])
    · unfold BijInv
      dsimp only
      exact bij_rename s.hexToName s.nameToHex (icaoHexOf m) cur (desiredNameOf s m)
        hinv.1 hinv.2 hcur hren.2 hnc
    · unfold BijInv
      dsimp only
      exact bij_rename s.hexToName s.nameToHex (icaoHexOf m) cur (desiredNameOf s m)
        hinv.1 hinv.2 hcur hren.2 hnc
    · exact absurd hadm.2 (by simp [hcur])
    · exact absurd hadm.2 (by simp [hcur])
    · exact hinv
    · exact hinv

theorem throttlePhase_bij (dist : ℚ → ℚ → ℚ → ℚ → ℚ) (s : AdsbState) (m : Msg) (now : Nat)
    (hinv : BijInv s) (hnc : stepNoCollide s m) : BijInv (throttlePhase dist s m now).1 := by
  unfold throttlePhase
  dsimp only
  split_ifs with h1 h2 h3
  · exact hinv
  · exact afterThrottle_bij dist _ m now hinv hnc
  · exact hinv
  · exact afterThrottle_bij dist _ m now hinv hnc

theorem afterRange_bij (dist : ℚ → ℚ → ℚ → ℚ → ℚ) (s : AdsbState) (m : Msg) (now : Nat)
    (hinv : BijInv s) (hnc : stepNoCollide s m) : BijInv (afterRange dist s m now).1 := by
  unfold afterRange
  dsimp only
  rcases hAlt : m.alt with _ | a <;> dsimp only <;>
    (repeat' split) <;>
      first
      | exact hinv
      | exact throttlePhase_bij dist _ m now hinv hnc
      | exact dwellDelete_bij _ m now hinv hnc

theorem adsbStep_bij (dist : ℚ → ℚ → ℚ → ℚ → ℚ) (s : AdsbState) (m : Msg) (now : Nat)
    (hinv : BijInv s) (hnc : stepNoCollide s m) : BijInv (adsbStep dist s m now).1 := by
  unfold adsbStep
  dsimp only
  split_ifs with h1 h2
  · exact rangeClear_bij s m now hinv hnc
  · exact hinv
  · exact afterRange_bij dist s m now hinv hnc

theorem sweepOne_bij (s : AdsbState) (n : String) (now : Nat) (hinv : BijInv s)
    (hne : s.hexToName "" = none) : BijInv (sweepOne s n now).1 := by
  unfold sweepOne
  dsimp only
  unfold BijInv
  dsimp only
  exact bij_sweep s.hexToName s.nameToHex n hinv.1 hinv.2 hne

theorem sweepOne_nez (s : AdsbState) (n : String) (now : Nat)
    (hne : s.hexToName "" = none) : (sweepOne s n now).1.hexToName "" = none := by
  unfold sweepOne
  dsimp only
  rcases s.nameToHex n with _ | hx
  · exact hne
  · dsimp only
    split
    · exact hne
    · exact frem_none s.hexToName hx "" hne

theorem sweepList_bij (names : List String) : ∀ (s : AdsbState) (now : Nat),
    BijInv s → s.hexToName "" = none →
    BijInv (sweepList s names now).1 ∧ (sweepList s names now).1.hexToName "" = none := by
  induction names with
  | nil => intro s now hinv hne; exact ⟨hinv, hne⟩
  | cons n rest ih =>
    intro s now hinv hne
    unfold sweepList
    dsimp only
    exact ih _ now (sweepOne_bij s n now hinv hne) (sweepOne_nez s n now hne)

theorem ttlSweep_bij (s : AdsbState) (now : Nat) (hinv : BijInv s)
    (hne : s.hexToName "" = none) :
    BijInv (ttlSweep s now).1 ∧ (ttlSweep s now).1.hexToName "" = none := by
  unfold ttlSweep
  exact sweepList_bij _ s now hinv hne

theorem rangeClear_nez (s : AdsbState) (m : Msg) (now : Nat)
    (hne : s.hexToName "" = none) : (rangeClear s m now).1.hexToName "" = none := by
  unfold rangeClear
  dsimp only
  rcases s.hexToName (icaoHexOf m) with _ | c
  · exact hne
  · dsimp only
    split
    · exact hne
    · exact frem_none s.hexToName (icaoHexOf m) "" hne

theorem dwellDelete_nez (s : AdsbState) (m : Msg) (now : Nat)
    (hne : s.hexToName "" = none) : (dwellDelete s m now).1.hexToName "" = none := by
  unfold dwellDelete
  dsimp only
  rcases s.hexToName (icaoHexOf m) with _ | c
  · exact hne
  · dsimp only
    split
    · exact hne
    · exact frem_none s.hexToName (icaoHexOf m) "" hne

theorem afterThrottle_nez (dist : ℚ → ℚ → ℚ → ℚ → ℚ) (s : AdsbState) (m : Msg) (now : Nat)
    (hne : s.hexToName "" = none) :
    (afterThrottle dist s m now).1.hexToName "" = none := by
  unfold afterThrottle
  dsimp only
  rcases hx : s.hexToName (icaoHexOf m) with _ | cur
  · dsimp only
    repeat' split
    all_goals dsimp only
    all_goals
      first
        | exact hne
        | (rename_i hadm hsend
           have hic2 : ¬ ("" : String) = icaoHexOf m := fun h => hadm.1 (Eq.symm h)
           simp [fupd, hic2, hne])
  · have hic : ¬ ("" : String) = icaoHexOf m := by
      intro h
      rw [← h, hne] at hx
      exact Option.noConfusion hx
    dsimp only
    repeat' split
    all_goals dsimp only
    all_goals
      first
        | exact hne
        | simp [fupd, hic, hne]

theorem throttlePhase_nez (dist : ℚ → ℚ → ℚ → ℚ → ℚ) (s : AdsbState) (m : Msg) (now : Nat)
    (hne : s.hexToName "" = none) :
    (throttlePhase dist s m now).1.hexToName "" = none := by
  unfold throttlePhase
  dsimp only
  repeat' split
  all_goals
    first
      | exact hne
      | exact afterThrottle_nez dist _ m now hne

theorem afterRange_nez (dist : ℚ → ℚ → ℚ → ℚ → ℚ) (s : AdsbState) (m : Msg) (now : Nat)
    (hne : s.hexToName "" = none) :
    (afterRange dist s m now).1.hexToName "" = none := by
  unfold afterRange
  dsimp only
  repeat' split
  all_goals
    first
      | exact hne
      | exact dwellDelete_nez _ m now hne
      | exact throttlePhase_nez dist _ m now hne

theorem adsbStep_nez (dist : ℚ → ℚ → ℚ → ℚ → ℚ) (s : AdsbState) (m : Msg) (now : Nat)
    (hne : s.hexToName "" = none) : (adsbStep dist s m now).1.hexToName "" = none := by
  unfold adsbStep
  dsimp only
  split
  · exact rangeClear_nez s m now hne
  · split
    · exact hne
    · exact afterRange_nez dist s m now hne

/-- C4 (amended): every step of the ADS-B manager, record processing
(admission, rename, range clear, landed dwell) as well as the TTL sweep,
preserves the two-direction hex-name bijection together with the
background invariant that hex_to_name maps no empty hex string (true of
the initial state, and maintained because admission requires a non-empty
ICAO hex), provided any processed record does not collide: its desired
object name is either unclaimed in name_to_hex or already paired with
the record's own ICAO hex.  The TTL sweep needs the no-empty-hex
invariant because its hex_to_name cleanup is guarded on the truthiness
of the popped hex and is skipped for a falsy one.  The original claim
asserted the bijection also across runs in which two distinct ICAO hexes
yield the same nine-character name; the counterexample refutes that. -/
theorem c4_bijection_amended (dist : ℚ → ℚ → ℚ → ℚ → ℚ) (s : AdsbState) (m : Msg) (now : Nat) :
    (BijInv s → s.hexToName "" = none → stepNoCollide s m →
      BijInv (adsbStep dist s m now).1 ∧ (adsbStep dist s m now).1.hexToName "" = none)
    ∧ (BijInv s → s.hexToName "" = none →
      BijInv (ttlSweep s now).1 ∧ (ttlSweep s now).1.hexToName "" = none) :=
  ⟨fun hinv hne hnc => ⟨adsbStep_bij dist s m now hinv hnc, adsbStep_nez dist s m now hne⟩,
    fun hinv hne => ttlSweep_bij s now hinv hne⟩

/-- Distance abstraction for the collision run: the previously sent
position (latitude 1) reads as 100 mi so the movement gate passes, and the
reference-point distance reads as 10 mi so every record is admitted. -/
def c4dist : ℚ → ℚ → ℚ → ℚ → ℚ := fun a _ _ _ => if a == 1 then 100 else 10

def c4m1 : Msg :=
  { icao := some "AAA111", callsign := some "UNITED12345", lat := 1, lon := 1,
    trk := none, gs := none, alt := none }

def c4m2 : Msg :=
  { icao := some "BBB222", callsign := some "UNITED12399", lat := 1, lon := 1,
    trk := none, gs := none, alt := none }

/-- C4 counterexample: the callsigns UNITED12345 and UNITED12399 truncate
to the same nine-character object name, so after the two admissions
hex_to_name maps both hexes to UNITED123 while name_to_hex pairs the name
with the second hex only: name_to_hex[hex_to_name[AAA111]] is BBB222, not
AAA111, refuting the claim for colliding runs. -/
theorem c4_counterexample :
    (adsbStep c4dist (adsbStep c4dist adsbInit c4m1 100).1 c4m2 100).1.hexToName "AAA111" =
        some "UNITED123"
    ∧ (adsbStep c4dist (adsbStep c4dist adsbInit c4m1 100).1 c4m2 100).1.hexToName "BBB222" =
        some "UNITED123"
    ∧ (adsbStep c4dist (adsbStep c4dist adsbInit c4m1 100).1 c4m2 100).1.nameToHex "UNITED123" =
        some "BBB222"
    ∧ ("BBB222" == "AAA111") = false := by
  refine ⟨by decide, by decide, by decide, by decide⟩

/-- C4 witness: the amended preservation statement applied to the empty
initial state and the first record of the collision run. -/
theorem c4_bijection_witness :
    BijInv adsbInit ∧ adsbInit.hexToName "" = none ∧ stepNoCollide adsbInit c4m1
    ∧ BijInv (adsbStep c4dist adsbInit c4m1 100).1
    ∧ (adsbStep c4dist adsbInit c4m1 100).1.hexToName "" = none := by
  have hinv : BijInv adsbInit := by
    constructor
    · intro h n hh
      exact Option.noConfusion hh
    · intro n h hh
      exact Option.noConfusion hh
  have hne : adsbInit.hexToName "" = none := rfl
  have hnc : stepNoCollide adsbInit c4m1 := Or.inl rfl
  have h := (c4_bijection_amended c4dist adsbInit c4m1 100).1 hinv hne hnc
  exact ⟨hinv, hne, hnc, h.1, h.2⟩

end Bridge

namespace Bridge

/-- Fields of one multi-fragment sentence of a fixed key and fragment
count. -/
structure FragDesc where
  num : ℤ
  payload : String
  fill : ℤ
deriving DecidableEq, Repr

/-- Run of parse_nmea over the multi-fragment sentences of one key with
fragment count N, keeping each call's (result, reason) pair. -/
def runFrags (N : ℤ) (seq chan : String) (st : FragStore) :
    List FragDesc → FragStore × List (Option (String × ℤ) × Option String)
  | [] => (st, [])
  | f :: rest =>
    let r := frag_step st N f.num seq chan f.payload f.fill
    let r2 := runFrags N seq chan r.1 rest
    (r2.1, r.2 :: r2.2)

/-- All fragment numbers 1..N occur in the list. -/
def covers (N : ℤ) (gs : List FragDesc) : Prop :=
  ∀ i ∈ pyRange 1 (N + 1), ∃ f ∈ gs, f.num = i

instance (N : ℤ) (gs : List FragDesc) : Decidable (covers N gs) := by
  unfold covers
  infer_instance

/-- Payload table accumulated by the fragment branch. -/
def plOf (gs : List FragDesc) : List (ℤ × String) :=
  gs.foldl (fun pl f => upsertI pl f.num f.payload) []

/-- Payload of the last fragment with the given number, if any. -/
def latestPayload (gs : List FragDesc) (i : ℤ) : Option String :=
  gs.foldl (fun a f => if f.num = i then some f.payload else a) none

/-- Keys of a payload table. -/
def keysOf (pl : List (ℤ × String)) : List ℤ := pl.map Prod.fst

theorem keysOf_upsertI (pl : List (ℤ × String)) (k : ℤ) (v : String) :
    keysOf (upsertI pl k v) = if k ∈ keysOf pl then keysOf pl else keysOf pl ++ [k] := by
  induction pl with
  | nil => simp [upsertI, keysOf]
  | cons p t ih =>
    rcases p with ⟨a, b⟩
    unfold upsertI
    by_cases hak : a = k
    · subst hak
      simp [keysOf]
    · rw [if_neg hak]
      simp only [keysOf, List.map_cons] at ih ⊢
      rw [ih]
      by_cases hk : k ∈ List.map Prod.fst t
      · rw [if_pos hk, if_pos (by simp [hk])]
      · rw [if_neg hk, if_neg (by simp [hk, Ne.symm hak])]
        simp

theorem length_upsertI (pl : List (ℤ × String)) (k : ℤ) (v : String) :
    (upsertI pl k v).length = if k ∈ keysOf pl then pl.length else pl.length + 1 := by
  have h := keysOf_upsertI pl k v
  have h1 : (upsertI pl k v).length = (keysOf (upsertI pl k v)).length := by
    simp [keysOf]
  have h2 : pl.length = (keysOf pl).length := by simp [keysOf]
  rw [h1, h, h2]
  split_ifs <;> simp

theorem lookupI_cons (a : ℤ) (b : String) (t : List (ℤ × String)) (x : ℤ) :
    lookupI ((a, b) :: t) x = if a = x then some b else lookupI t x := by
  unfold lookupI
  rw [List.find?_cons]
  by_cases hax : a = x
  · rw [if_pos hax]
    rw [show (((a, b) : ℤ × String).1 == x) = true from by simp [hax]]
    rfl
  · rw [if_neg hax]
    rw [show (((a, b) : ℤ × String).1 == x) = false from by simp [hax]]

theorem lookupI_upsertI_self (pl : List (ℤ × String)) (k : ℤ) (v : String) :
    lookupI (upsertI pl k v) k = some v := by
  induction pl with
  | nil => simp [upsertI, lookupI]
  | cons p t ih =>
    rcases p with ⟨a, b⟩
    unfold upsertI
    by_cases hak : a = k
    · subst hak
      rw [if_pos rfl, lookupI_cons, if_pos rfl]
    · rw [if_neg hak, lookupI_cons, if_neg hak]
      exact ih

theorem lookupI_upsertI_ne (pl : List (ℤ × String)) (k x : ℤ) (v : String) (hx : x ≠ k) :
    lookupI (upsertI pl k v) x = lookupI pl x := by
  induction pl with
  | nil =>
    unfold upsertI
    rw [lookupI_cons, if_neg (Ne.symm hx)]
  | cons p t ih =>
    rcases p with ⟨a, b⟩
    unfold upsertI
    by_cases hak : a = k
    · subst hak
      rw [if_pos rfl, lookupI_cons, lookupI_cons, if_neg (fun h => hx h.symm),
        if_neg (fun h => hx h.symm)]
    · rw [if_neg hak, lookupI_cons, lookupI_cons]
      by_cases hax : a = x
      · rw [if_pos hax, if_pos hax]
      · rw [if_neg hax, if_neg hax]
        exact ih

theorem nodup_keysOf_upsertI (pl : List (ℤ × String)) (k : ℤ) (v : String)
    (h : (keysOf pl).Nodup) : (keysOf (upsertI pl k v)).Nodup := by
  rw [keysOf_upsertI]
  split_ifs with hk
  · exact h
  · simp [List.nodup_append, h, hk]

theorem mem_pyRange (a b i : ℤ) : i ∈ pyRange a b ↔ a ≤ i ∧ i < b := by
  unfold pyRange
  simp only [List.mem_map, List.mem_range]
  constructor
  · rintro ⟨k, hk, rfl⟩
    omega
  · rintro ⟨h1, h2⟩
    refine ⟨(i - a).toNat, by omega, by omega⟩

theorem nodup_pyRange (a b : ℤ) : (pyRange a b).Nodup := by
  unfold pyRange
  refine List.Nodup.map ?_ (List.nodup_range _)
  intro x y hxy
  dsimp only at hxy
  omega

theorem length_pyRange (a b : ℤ) : (pyRange a b).length = (b - a).toNat := by
  unfold pyRange
  simp

theorem mem_keysOf_upsertI (pl : List (ℤ × String)) (k i : ℤ) (v : String) :
    i ∈ keysOf (upsertI pl k v) ↔ i ∈ keysOf pl ∨ i = k := by
  rw [keysOf_upsertI]
  split_ifs with hk
  · constructor
    · exact fun h => Or.inl h
    · rintro (h | rfl)
      · exact h
      · exact hk
  · rw [List.mem_append]
    simp

theorem mem_keysOf_plOf_aux (gs : List FragDesc) (i : ℤ) :
    ∀ pl, i ∈ keysOf (gs.foldl (fun pl f => upsertI pl f.num f.payload) pl) ↔
      i ∈ keysOf pl ∨ ∃ f ∈ gs, f.num = i := by
  induction gs with
  | nil => intro pl; simp
  | cons f rest ih =>
    intro pl
    rw [List.foldl_cons, ih, mem_keysOf_upsertI]
    constructor
    · rintro ((h | h) | h)
      · exact Or.inl h
      · exact Or.inr ⟨f, by simp, h.symm⟩
      · obtain ⟨g, hg, hgi⟩ := h
        exact Or.inr ⟨g, by simp [hg], hgi⟩
    · rintro (h | h)
      · exact Or.inl (Or.inl h)
      · obtain ⟨g, hg, hgi⟩ := h
        rcases List.mem_cons.mp hg with rfl | hg2
        · exact Or.inl (Or.inr hgi.symm)
        · exact Or.inr ⟨g, hg2, hgi⟩

theorem mem_keysOf_plOf (gs : List FragDesc) (i : ℤ) :
    i ∈ keysOf (plOf gs) ↔ ∃ f ∈ gs, f.num = i := by
  unfold plOf
  rw [mem_keysOf_plOf_aux]
  simp [keysOf]

theorem nodup_keysOf_plOf_aux (gs : List FragDesc) :
    ∀ pl, (keysOf pl).Nodup →
      (keysOf (gs.foldl (fun pl f => upsertI pl f.num f.payload) pl)).Nodup := by
  induction gs with
  | nil => intro pl h; exact h
  | cons f rest ih =>
    intro pl h
    rw [List.foldl_cons]
    exact ih _ (nodup_keysOf_upsertI pl f.num f.payload h)

theorem nodup_keysOf_plOf (gs : List FragDesc) : (keysOf (plOf gs)).Nodup :=
  nodup_keysOf_plOf_aux gs [] (by simp [keysOf])

theorem lookupI_plOf_aux (gs : List FragDesc) (i : ℤ) :
    ∀ pl, lookupI (gs.foldl (fun pl f => upsertI pl f.num f.payload) pl) i =
      gs.foldl (fun a f => if f.num = i then some f.payload else a) (lookupI pl i) := by
  induction gs with
  | nil => intro pl; rfl
  | cons f rest ih =>
    intro pl
    rw [List.foldl_cons, List.foldl_cons, ih]
    congr 1
    by_cases hf : f.num = i
    · rw [if_pos hf]
      subst hf
      exact lookupI_upsertI_self pl f.num f.payload
    · rw [if_neg hf]
      exact lookupI_upsertI_ne pl f.num i f.payload (fun h => hf h.symm)

theorem lookupI_plOf (gs : List FragDesc) (i : ℤ) :
    lookupI (plOf gs) i = latestPayload gs i := by
  unfold plOf latestPayload
  rw [lookupI_plOf_aux]
  rfl

theorem plOf_length_iff_covers (N : ℤ) (hN : 2 ≤ N) (gs : List FragDesc)
    (hwf : ∀ f ∈ gs, 1 ≤ f.num ∧ f.num ≤ N) :
    (((plOf gs).length : ℤ) = N ↔ covers N gs) := by
  have hkeys_sub : keysOf (plOf gs) ⊆ pyRange 1 (N + 1) := by
    intro i hi
    rw [mem_keysOf_plOf] at hi
    obtain ⟨f, hf, hfi⟩ := hi
    rw [mem_pyRange]
    have := hwf f hf
    omega
  have hnodup : (keysOf (plOf gs)).Nodup := nodup_keysOf_plOf gs
  have hlen_eq : (plOf gs).length = (keysOf (plOf gs)).length := by simp [keysOf]
  have hrange_len : (pyRange 1 (N + 1)).length = N.toNat := by
    rw [length_pyRange]
    omega
  constructor
  · intro hlen
    have hsub := List.subperm_of_subset hnodup hkeys_sub
    have hperm : List.Perm (keysOf (plOf gs)) (pyRange 1 (N + 1)) := by
      refine hsub.perm_of_length_le ?_
      rw [hrange_len, ← hlen_eq]
      omega
    intro i hi
    rw [← mem_keysOf_plOf]
    exact hperm.mem_iff.mpr hi
  · intro hcov
    have hsub2 : pyRange 1 (N + 1) ⊆ keysOf (plOf gs) := by
      intro i hi
      rw [mem_keysOf_plOf]
      exact hcov i hi
    have h1 := (List.subperm_of_subset (nodup_pyRange 1 (N + 1)) hsub2).length_le
    have h2 := (List.subperm_of_subset hnodup hkeys_sub).length_le
    rw [hlen_eq]
    omega

theorem covers_mono (N : ℤ) (gs gs2 : List FragDesc) (hsub : gs ⊆ gs2) (h : covers N gs) :
    covers N gs2 := by
  intro i hi
  obtain ⟨f, hf, hfi⟩ := h i hi
  exact ⟨f, hsub hf, hfi⟩

theorem plOf_append_one (gs : List FragDesc) (f : FragDesc) :
    plOf (gs ++ [f]) = upsertI (plOf gs) f.num f.payload := by
  unfold plOf
  rw [List.foldl_append]
  rfl

theorem runFrags_append (N : ℤ) (seq chan : String) (xs ys : List FragDesc) :
    ∀ st, runFrags N seq chan st (xs ++ ys) =
      ((runFrags N seq chan (runFrags N seq chan st xs).1 ys).1,
        (runFrags N seq chan st xs).2 ++ (runFrags N seq chan (runFrags N seq chan st xs).1 ys).2) := by
  induction xs with
  | nil => intro st; simp [runFrags]
  | cons f rest ih =>
    intro st
    simp only [List.cons_append, runFrags, List.append_eq]
    rw [ih]

theorem frag_step_waiting (N : ℤ) (hN : 2 ≤ N) (seq chan : String) (st : FragStore)
    (done : List FragDesc) (f : FragDesc)
    (hst : (done = [] ∧ st (seq, chan) = none) ∨
      (done ≠ [] ∧ ∃ fl, st (seq, chan) = some ⟨N, plOf done, fl⟩))
    (hwf : ∀ g ∈ done ++ [f], 1 ≤ g.num ∧ g.num ≤ N)
    (hnc : ¬ covers N (done ++ [f])) :
    frag_step st N f.num seq chan f.payload f.fill =
      (fun k => if k = (seq, chan) then some ⟨N, plOf (done ++ [f]), f.fill⟩ else st k,
        (none, some "waiting_frag")) := by
  have hlen : ¬ (((plOf (done ++ [f])).length : ℤ) = N) := by
    intro hl
    exact hnc ((plOf_length_iff_covers N hN (done ++ [f]) hwf).mp hl)
  unfold frag_step
  dsimp only
  rcases hst with ⟨hd, hstn⟩ | ⟨hd, fl, hsts⟩
  · subst hd
    rw [hstn]
    dsimp only
    have hplf : upsertI ([] : List (ℤ × String)) f.num f.payload = plOf ([] ++ [f]) := by
      rw [plOf_append_one]
      rfl
    rw [if_neg (by rw [hplf]; exact hlen)]
    rw [hplf]
  · rw [hsts]
    dsimp only
    have hplf : upsertI (plOf done) f.num f.payload = plOf (done ++ [f]) := by
      rw [plOf_append_one]
    rw [if_neg (by rw [hplf]; exact hlen)]
    rw [hplf]

theorem frag_step_complete (N : ℤ) (hN : 2 ≤ N) (seq chan : String) (st : FragStore)
    (done : List FragDesc) (f : FragDesc)
    (hst : (done = [] ∧ st (seq, chan) = none) ∨
      (done ≠ [] ∧ ∃ fl, st (seq, chan) = some ⟨N, plOf done, fl⟩))
    (hwf : ∀ g ∈ done ++ [f], 1 ≤ g.num ∧ g.num ≤ N)
    (hc : covers N (done ++ [f])) :
    (frag_step st N f.num seq chan f.payload f.fill).2 =
      (some (String.join ((pyRange 1 (N + 1)).map
        (fun i => (latestPayload (done ++ [f]) i).getD "")), f.fill), none) := by
  have hlen : ((plOf (done ++ [f])).length : ℤ) = N :=
    (plOf_length_iff_covers N hN (done ++ [f]) hwf).mpr hc
  unfold frag_step
  dsimp only
  rcases hst with ⟨hd, hstn⟩ | ⟨hd, fl, hsts⟩
  · subst hd
    rw [hstn]
    dsimp only
    have hplf : upsertI ([] : List (ℤ × String)) f.num f.payload = plOf ([] ++ [f]) := by
      rw [plOf_append_one]
      rfl
    rw [if_pos (by rw [hplf]; exact hlen)]
    dsimp only
    rw [hplf]
    simp only [lookupI_plOf]
  · rw [hsts]
    dsimp only
    have hplf : upsertI (plOf done) f.num f.payload = plOf (done ++ [f]) := by
      rw [plOf_append_one]
    rw [if_pos (by rw [hplf]; exact hlen)]
    dsimp only
    rw [hplf]
    simp only [lookupI_plOf]

theorem runFrags_waiting (N : ℤ) (seq chan : String) (hN : 2 ≤ N) :
    ∀ (fs done : List FragDesc) (st : FragStore),
      (∀ f ∈ done ++ fs, 1 ≤ f.num ∧ f.num ≤ N) →
      ((done = [] ∧ st (seq, chan) = none) ∨
        (done ≠ [] ∧ ∃ fl, st (seq, chan) = some ⟨N, plOf done, fl⟩)) →
      ¬ covers N (done ++ fs) →
      (runFrags N seq chan st fs).2 =
          fs.map (fun _ => ((none : Option (String × ℤ)), some "waiting_frag"))
      ∧ ((done ++ fs = [] ∧ (runFrags N seq chan st fs).1 (seq, chan) = none) ∨
          (done ++ fs ≠ [] ∧ ∃ fl,
            (runFrags N seq chan st fs).1 (seq, chan) = some ⟨N, plOf (done ++ fs), fl⟩)) := by
  intro fs
  induction fs with
  | nil =>
    intro done st hwf hst hnc
    refine ⟨rfl, ?_⟩
    rw [List.append_nil]
    exact hst
  | cons f rest ih =>
    intro done st hwf hst hnc
    have hnc1 : ¬ covers N (done ++ [f]) := by
      intro hc
      exact hnc (covers_mono N (done ++ [f]) (done ++ f :: rest) (by
        intro g hg
        rcases List.mem_append.mp hg with h | h
        · exact List.mem_append.mpr (Or.inl h)
        · simp at h
          subst h
          simp) hc)
    have hwf1 : ∀ g ∈ done ++ [f], 1 ≤ g.num ∧ g.num ≤ N := by
      intro g hg
      rcases List.mem_append.mp hg with h | h
      · exact hwf g (List.mem_append.mpr (Or.inl h))
      · simp at h
        subst h
        exact hwf g (by simp)
    have hstep := frag_step_waiting N hN seq chan st done f hst hwf1 hnc1
    have hwf2 : ∀ g ∈ (done ++ [f]) ++ rest, 1 ≤ g.num ∧ g.num ≤ N := by
      intro g hg
      apply hwf
      rw [List.append_assoc] at hg
      simpa using hg
    have hnc2 : ¬ covers N ((done ++ [f]) ++ rest) := by
      rw [List.append_assoc]
      simpa using hnc
    have hrest := ih (done ++ [f])
      (fun k => if k = (seq, chan) then some ⟨N, plOf (done ++ [f]), f.fill⟩ else st k)
      hwf2 (Or.inr ⟨by simp, f.fill, by simp⟩) hnc2
    simp only [runFrags]
    rw [hstep]
    dsimp only
    refine ⟨?_, ?_⟩
    · rw [hrest.1]
      simp
    · rcases hrest.2 with ⟨habs, _⟩ | ⟨hne, fl, hfin⟩
      · exact absurd habs (by simp)
      · right
        refine ⟨by simp, fl, ?_⟩
        rw [List.append_assoc, List.singleton_append] at hfin
        exact hfin

/-- C8 counterexample: the claim says parse_nmea assembles exactly when
all N fragments numbered 1..N have arrived and then concatenates all
fragment payloads in ascending fragment number.  Feeding three fragments
of a count-3 sentence group numbered 2, 5 and 7 (fragments 1 and 3 never
arrive), the code assembles after the third because it only compares the
number of stored payloads with the count: the result is "BBB" (indices
1..3 looked up with default ""), not the concatenation "BBBCCCDDD" of the
received payloads. -/
theorem c8_counterexample :
    (let r1 := parse_nmea fragInit "!AIVDM,3,2,7,A,BBB,0*1A"
     let r2 := parse_nmea r1.1 "!AIVDM,3,5,7,A,CCC,0*1A"
     let r3 := parse_nmea r2.1 "!AIVDM,3,7,7,A,DDD,0*1A"
     r1.2 = (none, some "waiting_frag") ∧ r2.2 = (none, some "waiting_frag") ∧
       r3.2.1 = some ("BBB", 0)) ∧
    ("BBB" : String) ≠ "BBB" ++ "CCC" ++ "DDD" := by
  exact ⟨⟨by decide, by decide, by decide⟩, by decide⟩

/-- C8 (amended): over fragments of one (sequence_id, channel) key with
fragment count N at least 2, provided every fragment number lies in 1..N,
parse_nmea returns waiting_frag for each fragment while the numbers seen
so far do not cover 1..N, and on the first fragment completing the cover
it returns the concatenation, in ascending fragment number, of the most
recent payload stored under each number 1..N, paired with the fill-bit
count of that last fragment.  Without the number-range proviso the claim
fails (fragment numbers outside 1..N also satisfy the stored-payload
count test the code actually performs). -/
theorem c8_reassembly_amended (N : ℤ) (seq chan : String)
    (pre : List FragDesc) (flast : FragDesc)
    (hN : 2 ≤ N)
    (hwf : ∀ f ∈ pre ++ [flast], 1 ≤ f.num ∧ f.num ≤ N)
    (hpre : ¬ covers N pre)
    (hcov : covers N (pre ++ [flast])) :
    (runFrags N seq chan fragInit (pre ++ [flast])).2 =
      pre.map (fun _ => ((none : Option (String × ℤ)), some "waiting_frag"))
        ++ [(some (String.join ((pyRange 1 (N + 1)).map
              (fun i => (latestPayload (pre ++ [flast]) i).getD "")), flast.fill), none)] := by
  have hwfpre : ∀ f ∈ ([] : List FragDesc) ++ pre, 1 ≤ f.num ∧ f.num ≤ N := by
    intro g hg
    simp only [List.nil_append] at hg
    exact hwf g (List.mem_append.mpr (Or.inl hg))
  have hrun := runFrags_waiting N seq chan hN pre [] fragInit hwfpre
    (Or.inl ⟨rfl, rfl⟩) (by simpa using hpre)
  have hstW : (pre = [] ∧ (runFrags N seq chan fragInit pre).1 (seq, chan) = none) ∨
      (pre ≠ [] ∧ ∃ fl, (runFrags N seq chan fragInit pre).1 (seq, chan) =
        some ⟨N, plOf pre, fl⟩) := by
    simpa using hrun.2
  have hfin := frag_step_complete N hN seq chan (runFrags N seq chan fragInit pre).1
    pre flast hstW hwf hcov
  rw [runFrags_append]
  dsimp only
  rw [hrun.1]
  congr 1
  simp only [runFrags]
  rw [hfin]

/-- C8 witness: the amended statement applied to a two-fragment group,
fragment 1 with payload AA then fragment 2 with payload BB and 5 fill
bits; the first call waits and the second returns AABB with fill 5. -/
theorem c8_reassembly_witness :
    ((2 : ℤ) ≤ 2 ∧ ¬ covers 2 [⟨1, "AA", 0⟩] ∧
      covers 2 ([⟨1, "AA", 0⟩] ++ [⟨2, "BB", 5⟩])) ∧
    (runFrags 2 "7" "A" fragInit ([⟨(1 : ℤ), "AA", (0 : ℤ)⟩] ++ [⟨2, "BB", 5⟩])).2 =
      [((none : Option (String × ℤ)), some "waiting_frag"), (some ("AABB", 5), none)] := by
  refine ⟨⟨by decide, by decide, by decide⟩, ?_⟩
  have h := c8_reassembly_amended 2 "7" "A" [⟨1, "AA", 0⟩] ⟨2, "BB", 5⟩
    (by decide) (by decide) (by decide) (by decide)
  rw [h]
  decide

/-!
C1: per-second rate limiting of both pipelines.
-/

/-- Nondecreasing run of seconds starting at or after a. -/
def monoFrom (a : Nat) : List Nat → Bool
  | [] => true
  | b :: rest => decide (a ≤ b) && monoFrom b rest

theorem monoFrom_le {a b : Nat} {l : List Nat} (h : monoFrom a l = true) (hba : b ≤ a) :
    monoFrom b l = true := by
  cases l with
  | nil => rfl
  | cons c rest =>
    simp only [monoFrom, Bool.and_eq_true, decide_eq_true_eq] at h ⊢
    exact ⟨le_trans hba h.1, h.2⟩

/-- Throttle invariant of the adsb_worker: every second's non-delete
output is within the budget, no non-delete line is dated after the
current throttle second, and the per-second counter dominates the current
second's non-delete output. -/
def NInv (s : AdsbState) (es : List Emit) : Prop :=
  (∀ u, normCount es u ≤ MAX_PKTS_PER_SEC) ∧
  (∀ u, s.lastSec < u → normCount es u = 0) ∧
  normCount es s.lastSec ≤ s.sentThisSec

theorem normCount_append (es fs : List Emit) (t : Nat) :
    normCount (es ++ fs) t = normCount es t + normCount fs t := by
  simp [normCount, List.filter_append]

theorem NInv_extend_del {s s' : AdsbState} {es fs : List Emit}
    (hls : s'.lastSec = s.lastSec) (hcn : s'.sentThisSec = s.sentThisSec)
    (hz : ∀ t, normCount fs t = 0) (hinv : NInv s es) : NInv s' (es ++ fs) := by
  obtain ⟨h1, h2, h3⟩ := hinv
  refine ⟨?_, ?_, ?_⟩
  · intro u
    rw [normCount_append, hz u]
    simpa using h1 u
  · intro u hu
    rw [hls] at hu
    rw [normCount_append, hz u, h2 u hu]
  · rw [hls, hcn, normCount_append, hz s.lastSec]
    simpa using h3

theorem rangeClear_norm (s : AdsbState) (m : Msg) (now : Nat) :
    (rangeClear s m now).1.lastSec = s.lastSec ∧
    (rangeClear s m now).1.sentThisSec = s.sentThisSec ∧
    ∀ t, normCount (rangeClear s m now).2 t = 0 := by
  exact ⟨rfl, rfl, fun t => by simp [rangeClear, normCount, List.filter]⟩

theorem dwellDelete_norm (s : AdsbState) (m : Msg) (now : Nat) :
    (dwellDelete s m now).1.lastSec = s.lastSec ∧
    (dwellDelete s m now).1.sentThisSec = s.sentThisSec ∧
    ∀ t, normCount (dwellDelete s m now).2 t = 0 := by
  exact ⟨rfl, rfl, fun t => by simp [dwellDelete, normCount, List.filter]⟩

theorem sweepOne_norm (s : AdsbState) (n : String) (now : Nat) :
    (sweepOne s n now).1.lastSec = s.lastSec ∧
    (sweepOne s n now).1.sentThisSec = s.sentThisSec ∧
    ∀ t, normCount (sweepOne s n now).2 t = 0 := by
  exact ⟨rfl, rfl, fun t => by simp [sweepOne, normCount, List.filter]⟩

theorem sweepList_norm : ∀ (names : List String) (s : AdsbState) (now : Nat),
    (sweepList s names now).1.lastSec = s.lastSec ∧
    (sweepList s names now).1.sentThisSec = s.sentThisSec ∧
    ∀ t, normCount (sweepList s names now).2 t = 0 := by
  intro names
  induction names with
  | nil => exact fun s now => ⟨rfl, rfl, fun t => rfl⟩
  | cons n rest ih =>
    intro s now
    simp only [sweepList]
    refine ⟨?_, ?_, ?_⟩
    · rw [(ih _ now).1]
      exact (sweepOne_norm s n now).1
    · rw [(ih _ now).2.1]
      exact (sweepOne_norm s n now).2.1
    · intro t
      rw [normCount_append, (sweepOne_norm s n now).2.2 t, (ih _ now).2.2 t]

/-- Shape of the rename, admission and emission phase: the throttle second
is untouched, and either the counter is untouched and no non-delete line
goes out, or the counter rises by one and exactly one non-delete line,
dated now, goes out. -/
theorem afterThrottle_norm (dist : ℚ → ℚ → ℚ → ℚ → ℚ) (s : AdsbState) (m : Msg) (now : Nat) :
    (afterThrottle dist s m now).1.lastSec = s.lastSec ∧
    (((afterThrottle dist s m now).1.sentThisSec = s.sentThisSec ∧
        ∀ t, normCount (afterThrottle dist s m now).2 t = 0) ∨
      ((afterThrottle dist s m now).1.sentThisSec = s.sentThisSec + 1 ∧
        ∀ t, normCount (afterThrottle dist s m now).2 t = if t = now then 1 else 0)) := by
  unfold afterThrottle
  dsimp only
  rcases hx : s.hexToName (icaoHexOf m) with _ | cur <;> dsimp only <;> repeat' split
  all_goals
    first
      | exact ⟨rfl, Or.inl ⟨rfl, fun t => by simp [normCount, List.filter]⟩⟩
      | exact ⟨rfl, Or.inr ⟨rfl, fun t => by
          by_cases ht : t = now
          · subst ht
            simp [normCount, List.filter]
          · have hbe : (now == t) = false := beq_eq_false_iff_ne.mpr (Ne.symm ht)
            simp [normCount, List.filter, hbe, ht]⟩⟩

theorem afterThrottle_inv (dist : ℚ → ℚ → ℚ → ℚ → ℚ) (s : AdsbState) (m : Msg) (now : Nat)
    (es : List Emit) (hsec : s.lastSec = now) (hcnt : s.sentThisSec < MAX_PKTS_PER_SEC)
    (hinv : NInv s es) :
    NInv (afterThrottle dist s m now).1 (es ++ (afterThrottle dist s m now).2) ∧
      (afterThrottle dist s m now).1.lastSec = s.lastSec := by
  obtain ⟨h1, h2, h3⟩ := hinv
  obtain ⟨hls, hcase⟩ := afterThrottle_norm dist s m now
  rcases hcase with ⟨hcn, hz⟩ | ⟨hcn, hone⟩
  · refine ⟨⟨?_, ?_, ?_⟩, hls⟩
    · intro u
      rw [normCount_append, hz u]
      simpa using h1 u
    · intro u hu
      rw [hls] at hu
      rw [normCount_append, hz u, h2 u hu]
    · rw [hls, hcn, normCount_append, hz s.lastSec]
      simpa using h3
  · have h3now : normCount es now ≤ s.sentThisSec := by
      rw [← hsec]
      exact h3
    refine ⟨⟨?_, ?_, ?_⟩, hls⟩
    · intro u
      rw [normCount_append, hone u]
      by_cases hu : u = now
      · subst hu
        rw [if_pos rfl]
        omega
      · rw [if_neg hu]
        simpa using h1 u
    · intro u hu
      rw [hls] at hu
      have hun : ¬ u = now := by
        rw [hsec] at hu
        omega
      rw [normCount_append, hone u, h2 u hu, if_neg hun]
    · rw [hls, hcn, normCount_append, hone s.lastSec, hsec, if_pos rfl]
      omega

theorem throttlePhase_inv (dist : ℚ → ℚ → ℚ → ℚ → ℚ) (s : AdsbState) (m : Msg) (now : Nat)
    (es : List Emit) (hle : s.lastSec ≤ now) (hinv : NInv s es) :
    NInv (throttlePhase dist s m now).1 (es ++ (throttlePhase dist s m now).2) ∧
      ((throttlePhase dist s m now).1.lastSec = s.lastSec ∨
        (throttlePhase dist s m now).1.lastSec = now) := by
  unfold throttlePhase
  dsimp only
  by_cases hres : now ≠ s.lastSec
  · rw [if_pos hres]
    have hlt : s.lastSec < now := lt_of_le_of_ne hle (fun h => hres h.symm)
    split
    · rename_i hgate
      have h05 : ¬ (0 : Nat) ≥ MAX_PKTS_PER_SEC := by decide
      exact absurd hgate h05
    · have hinv2 : NInv { s with lastSec := now, sentThisSec := 0 } es := by
        refine ⟨hinv.1, fun u hu => ?_, ?_⟩
        · have hu2 : now < u := hu
          exact hinv.2.1 u (by omega)
        · show normCount es now ≤ 0
          have h0 : normCount es now = 0 := hinv.2.1 now hlt
          omega
      have hcnt2 : ({ s with lastSec := now, sentThisSec := 0 } : AdsbState).sentThisSec <
          MAX_PKTS_PER_SEC := by
        show (0 : Nat) < MAX_PKTS_PER_SEC
        decide
      have hres2 := afterThrottle_inv dist { s with lastSec := now, sentThisSec := 0 } m now es
        rfl hcnt2 hinv2
      exact ⟨hres2.1, Or.inr hres2.2⟩
  · rw [if_neg hres]
    have heq : now = s.lastSec := not_not.mp hres
    split
    · refine ⟨?_, Or.inl rfl⟩
      rw [List.append_nil]
      exact hinv
    · rename_i hgate
      have hres2 := afterThrottle_inv dist s m now es heq.symm (not_le.mp hgate) hinv
      exact ⟨hres2.1, Or.inl hres2.2⟩

theorem afterRange_inv (dist : ℚ → ℚ → ℚ → ℚ → ℚ) (s : AdsbState) (m : Msg) (now : Nat)
    (es : List Emit) (hle : s.lastSec ≤ now) (hinv : NInv s es) :
    NInv (afterRange dist s m now).1 (es ++ (afterRange dist s m now).2) ∧
      ((afterRange dist s m now).1.lastSec = s.lastSec ∨
        (afterRange dist s m now).1.lastSec = now) := by
  unfold afterRange
  dsimp only
  repeat' split
  all_goals
    first
      | exact ⟨by rw [List.append_nil]; exact hinv, Or.inl rfl⟩
      | exact ⟨NInv_extend_del rfl rfl (dwellDelete_norm _ m now).2.2 hinv, Or.inl rfl⟩
      | exact throttlePhase_inv dist _ m now es hle hinv

theorem adsbStep_inv (dist : ℚ → ℚ → ℚ → ℚ → ℚ) (s : AdsbState) (m : Msg) (now : Nat)
    (es : List Emit) (hle : s.lastSec ≤ now) (hinv : NInv s es) :
    NInv (adsbStep dist s m now).1 (es ++ (adsbStep dist s m now).2) ∧
      ((adsbStep dist s m now).1.lastSec = s.lastSec ∨
        (adsbStep dist s m now).1.lastSec = now) := by
  unfold adsbStep
  dsimp only
  split
  · exact ⟨NInv_extend_del rfl rfl (rangeClear_norm s m now).2.2 hinv, Or.inl rfl⟩
  · split
    · exact ⟨by rw [List.append_nil]; exact hinv, Or.inl rfl⟩
    · exact afterRange_inv dist s m now es hle hinv

theorem ttlSweep_inv {s : AdsbState} {es : List Emit} (now : Nat) (hinv : NInv s es) :
    NInv (ttlSweep s now).1 (es ++ (ttlSweep s now).2) ∧ (ttlSweep s now).1.lastSec = s.lastSec := by
  unfold ttlSweep
  dsimp only
  exact ⟨NInv_extend_del (sweepList_norm _ s now).1 (sweepList_norm _ s now).2.1
    (sweepList_norm _ s now).2.2 hinv, (sweepList_norm _ s now).1⟩

theorem runAdsb_inv (dist : ℚ → ℚ → ℚ → ℚ → ℚ) : ∀ (items : List AdsbItem) (s : AdsbState)
    (es : List Emit), NInv s es →
    monoFrom s.lastSec (items.map AdsbItem.time) = true →
    NInv (runAdsb dist s items).1 (es ++ (runAdsb dist s items).2) := by
  intro items
  induction items with
  | nil =>
    intro s es hinv hch
    simp only [runAdsb]
    rw [List.append_nil]
    exact hinv
  | cons it rest ih =>
    intro s es hinv hch
    cases it with
    | record m now =>
      rw [List.map_cons] at hch
      simp only [monoFrom, Bool.and_eq_true, decide_eq_true_eq] at hch
      obtain ⟨hle, hch2⟩ := hch
      have hstep := adsbStep_inv dist s m now es hle hinv
      have hle2 : (adsbStep dist s m now).1.lastSec ≤ now := by
        rcases hstep.2 with h | h
        · rw [h]
          exact hle
        · rw [h]
      have hrec := ih (adsbStep dist s m now).1 (es ++ (adsbStep dist s m now).2) hstep.1
        (monoFrom_le hch2 hle2)
      simp only [runAdsb]
      rw [← List.append_assoc]
      exact hrec
    | sweep now =>
      rw [List.map_cons] at hch
      simp only [monoFrom, Bool.and_eq_true, decide_eq_true_eq] at hch
      obtain ⟨hle, hch2⟩ := hch
      have hstep := ttlSweep_inv now hinv
      have hle2 : (ttlSweep s now).1.lastSec ≤ now := by
        rw [hstep.2]
        exact hle
      have hrec := ih (ttlSweep s now).1 (es ++ (ttlSweep s now).2) hstep.1
        (monoFrom_le hch2 hle2)
      simp only [runAdsb]
      rw [← List.append_assoc]
      exact hrec

/-- Throttle invariant of the ais_worker. -/
def AInv (s : AisState) (es : List AisEmit) : Prop :=
  (∀ u, aisCount es u ≤ MAX_PKTS_PER_SEC) ∧
  (∀ u, s.lastSec < u → aisCount es u = 0) ∧
  aisCount es s.lastSec ≤ s.sentThisSec

theorem aisCount_append (es fs : List AisEmit) (t : Nat) :
    aisCount (es ++ fs) t = aisCount es t + aisCount fs t := by
  simp [aisCount, List.filter_append]

theorem aisThrottleSend_inv (s : AisState) (info : PosInfo) (now : Nat) (es : List AisEmit)
    (hle : s.lastSec ≤ now) (hinv : AInv s es) :
    AInv (aisThrottleSend s info now).1 (es ++ (aisThrottleSend s info now).2) ∧
      ((aisThrottleSend s info now).1.lastSec = s.lastSec ∨
        (aisThrottleSend s info now).1.lastSec = now) := by
  obtain ⟨h1, h2, h3⟩ := hinv
  have hone : ∀ (t : Nat), aisCount [(⟨info.mmsi, now⟩ : AisEmit)] t = if t = now then 1 else 0 := by
    intro t
    by_cases ht : t = now
    · subst ht
      simp [aisCount, List.filter]
    · have hbe : (now == t) = false := beq_eq_false_iff_ne.mpr (Ne.symm ht)
      simp [aisCount, List.filter, hbe, ht]
  unfold aisThrottleSend
  dsimp only
  by_cases hres : now ≠ s.lastSec
  · rw [if_pos hres]
    have hlt : s.lastSec < now := lt_of_le_of_ne hle (fun h => hres h.symm)
    split
    · rename_i hgate
      have h05 : ¬ (0 : Nat) ≥ MAX_PKTS_PER_SEC := by decide
      exact absurd hgate h05
    · refine ⟨⟨?_, ?_, ?_⟩, Or.inr rfl⟩
      · intro u
        rw [aisCount_append, hone u]
        by_cases hu : u = now
        · subst hu
          rw [if_pos rfl, h2 u hlt]
          decide
        · rw [if_neg hu]
          simpa using h1 u
      · intro u hu
        have hu2 : now < u := hu
        rw [aisCount_append, hone u, h2 u (by omega), if_neg (by omega)]
      · show aisCount (es ++ [(⟨info.mmsi, now⟩ : AisEmit)]) now ≤ 0 + 1
        rw [aisCount_append, hone now, if_pos rfl, h2 now hlt]
  · rw [if_neg hres]
    have heq : now = s.lastSec := not_not.mp hres
    split
    · refine ⟨?_, Or.inl rfl⟩
      rw [List.append_nil]
      exact ⟨h1, h2, h3⟩
    · rename_i hgate
      have hcnt : s.sentThisSec < MAX_PKTS_PER_SEC := not_le.mp hgate
      have h3now : aisCount es now ≤ s.sentThisSec := by
        rw [heq]
        exact h3
      refine ⟨⟨?_, ?_, ?_⟩, Or.inl rfl⟩
      · intro u
        rw [aisCount_append, hone u]
        by_cases hu : u = now
        · subst hu
          rw [if_pos rfl]
          omega
        · rw [if_neg hu]
          simpa using h1 u
      · intro u hu
        have hu2 : s.lastSec < u := hu
        have hun : ¬ u = now := by omega
        rw [aisCount_append, hone u, h2 u hu2, if_neg hun]
      · show aisCount (es ++ [(⟨info.mmsi, now⟩ : AisEmit)]) s.lastSec ≤ s.sentThisSec + 1
        rw [aisCount_append, hone s.lastSec, ← heq, if_pos rfl]
        omega

theorem aisStep_inv (dnm : ℚ → ℚ → ℚ → ℚ → ℚ) (s : AisState) (info : PosInfo) (now : Nat)
    (es : List AisEmit) (hle : s.lastSec ≤ now) (hinv : AInv s es) :
    AInv (aisStep dnm s info now).1 (es ++ (aisStep dnm s info now).2) ∧
      ((aisStep dnm s info now).1.lastSec = s.lastSec ∨
        (aisStep dnm s info now).1.lastSec = now) := by
  unfold aisStep
  repeat' split
  all_goals
    first
      | exact ⟨by rw [List.append_nil]; exact hinv, Or.inl rfl⟩
      | exact aisThrottleSend_inv s info now es hle hinv

theorem runAis_inv (dnm : ℚ → ℚ → ℚ → ℚ → ℚ) : ∀ (recs : List (PosInfo × Nat)) (s : AisState)
    (es : List AisEmit), AInv s es →
    monoFrom s.lastSec (recs.map Prod.snd) = true →
    AInv (runAis dnm s recs).1 (es ++ (runAis dnm s recs).2) := by
  intro recs
  induction recs with
  | nil =>
    intro s es hinv hch
    simp only [runAis]
    rw [List.append_nil]
    exact hinv
  | cons r rest ih =>
    intro s es hinv hch
    obtain ⟨info, now⟩ := r
    rw [List.map_cons] at hch
    simp only [monoFrom, Bool.and_eq_true, decide_eq_true_eq] at hch
    obtain ⟨hle, hch2⟩ := hch
    have hstep := aisStep_inv dnm s info now es hle hinv
    have hle2 : (aisStep dnm s info now).1.lastSec ≤ now := by
      rcases hstep.2 with h | h
      · rw [h]
        exact hle
      · rw [h]
    have hrec := ih (aisStep dnm s info now).1 (es ++ (aisStep dnm s info now).2) hstep.1
      (monoFrom_le hch2 hle2)
    simp only [runAis]
    rw [← List.append_assoc]
    exact hrec

theorem NInv_init : NInv adsbInit [] :=
  ⟨fun _ => Nat.zero_le _, fun _ _ => rfl, Nat.le_refl 0⟩

theorem AInv_init : AInv aisInit [] :=
  ⟨fun _ => Nat.zero_le _, fun _ _ => rfl, Nat.le_refl 0⟩

/-- C1 (amended): over any run with nondecreasing wall-clock seconds, each
pipeline sends at most MAX_PKTS_PER_SEC = 5 throttled lines per second:
on the ADS-B side the bound holds for the non-delete object lines (the
lines the counter counts), and on the AIS side it holds for every line.
The original claim extended the ADS-B bound to the delete lines emitted
on range clear, landed dwell, rename and TTL expiry; those bypass the
counter and the bound fails for them. -/
theorem c1_rate_limit_amended (dist dnm : ℚ → ℚ → ℚ → ℚ → ℚ)
    (items : List AdsbItem) (ais : List (PosInfo × Nat))
    (hmono : monoFrom 0 (items.map AdsbItem.time) = true)
    (hmonoA : monoFrom 0 (ais.map Prod.snd) = true) :
    (∀ t, normCount (runAdsb dist adsbInit items).2 t ≤ MAX_PKTS_PER_SEC) ∧
    (∀ t, aisCount (runAis dnm aisInit ais).2 t ≤ MAX_PKTS_PER_SEC) := by
  constructor
  · intro t
    have h := (runAdsb_inv dist items adsbInit [] NInv_init hmono).1 t
    rw [List.nil_append] at h
    exact h
  · intro t
    have h := (runAis_inv dnm ais aisInit [] AInv_init hmonoA).1 t
    rw [List.nil_append] at h
    exact h

/-- Distance oracle of the C1 counterexample: 50 miles for a record at
latitude 99, 10 miles otherwise. -/
def c1dist : ℚ → ℚ → ℚ → ℚ → ℚ := fun _ _ la _ => if la == 99 then 50 else 10

/-- Record of the C1 counterexample trace. -/
def c1mk (h : String) (la : ℚ) : Msg :=
  { icao := some h, callsign := none, lat := la, lon := 0, trk := none, gs := none, alt := none }

/-- Trace of the C1 counterexample: six tracks admitted at seconds 10 and
11, then all six out of range during second 20. -/
def c1items : List AdsbItem :=
  [.record (c1mk "A1" 1) 10, .record (c1mk "A2" 1) 10, .record (c1mk "A3" 1) 10,
    .record (c1mk "A4" 1) 10, .record (c1mk "A5" 1) 10, .record (c1mk "A6" 1) 11,
    .record (c1mk "A1" 99) 20, .record (c1mk "A2" 99) 20, .record (c1mk "A3" 99) 20,
    .record (c1mk "A4" 99) 20, .record (c1mk "A5" 99) 20, .record (c1mk "A6" 99) 20]

/-- C1 counterexample: on a trace with nondecreasing seconds, six tracks
admitted earlier all leave the coverage circle during second 20; the six
range-clear delete lines are sent during that one second without touching
the per-second counter, so the adsb_worker writes 6 > 5 lines to the APRS
socket in one second. -/
theorem c1_counterexample :
    monoFrom 0 (c1items.map AdsbItem.time) = true ∧
    allCount (runAdsb c1dist adsbInit c1items).2 20 = 6 ∧
    ¬ allCount (runAdsb c1dist adsbInit c1items).2 20 ≤ MAX_PKTS_PER_SEC := by
  exact ⟨by decide, by decide, by decide⟩

/-- C1 witness: the amended bound applied to a one-record ADS-B trace and
a one-record AIS trace. -/
theorem c1_rate_limit_witness :
    (monoFrom 0 (([AdsbItem.record (c1mk "B1" 1) 3]).map AdsbItem.time) = true ∧
      monoFrom 0 (([((⟨1, 7, 1, 1, none, none, none⟩ : PosInfo), 4)]).map Prod.snd) = true) ∧
    normCount (runAdsb (fun _ _ _ _ => 10) adsbInit [AdsbItem.record (c1mk "B1" 1) 3]).2 3 ≤
        MAX_PKTS_PER_SEC ∧
    aisCount (runAis (fun _ _ _ _ => 10) aisInit
        [((⟨1, 7, 1, 1, none, none, none⟩ : PosInfo), 4)]).2 4 ≤ MAX_PKTS_PER_SEC := by
  refine ⟨⟨by decide, by decide⟩, ?_, ?_⟩
  · exact (c1_rate_limit_amended (fun _ _ _ _ => 10) (fun _ _ _ _ => 10)
      [AdsbItem.record (c1mk "B1" 1) 3] [((⟨1, 7, 1, 1, none, none, none⟩ : PosInfo), 4)]
      (by decide) (by decide)).1 3
  · exact (c1_rate_limit_amended (fun _ _ _ _ => 10) (fun _ _ _ _ => 10)
      [AdsbItem.record (c1mk "B1" 1) 3] [((⟨1, 7, 1, 1, none, none, none⟩ : PosInfo), 4)]
      (by decide) (by decide)).2 4

end Bridge
